import Mathlib

/-!
# Verification of the libppd mapping-cache subsystem

Shallow embedding of the PPD mapping-cache code of
`src/ppd/ppd-cache.c` (OpenPrinting/libppd), together with proofs of the
specification claims about it.

Conventions of the embedding:

* C strings become `String`; `NULL` string pointers become `Option String`.
* C `int` becomes `Int` (the values involved are far from 32-bit overflow;
  every arithmetic step of the modelled code is overflow-free on the inputs
  the claims are about).
* The case-insensitive comparison `_ppd_strcasecmp(a,b) == 0` (ASCII) becomes
  `strCaseEq a b`.
* Fallible constructors become `Except String`-valued functions, the error
  string being exactly the message passed to `set_error` in the source.
  Allocation failures (`calloc`/`strdup` returning `NULL`) are not modelled:
  the machine has memory.
-/

namespace LibPPD

/-- Decidable equality for `Except`, used to evaluate the modelled fallible
constructors on concrete inputs. -/
instance {ε α : Type} [DecidableEq ε] [DecidableEq α] :
    DecidableEq (Except ε α) := fun a b =>
  match a, b with
  | .ok x, .ok y =>
      if h : x = y then isTrue (by rw [h]) else isFalse (by simp [h])
  | .error x, .error y =>
      if h : x = y then isTrue (by rw [h]) else isFalse (by simp [h])
  | .ok _, .error _ => isFalse (by simp)
  | .error _, .ok _ => isFalse (by simp)

/-- ASCII lower-casing of one character, as C `tolower` on ASCII input. -/
def toLowerChar (c : Char) : Char :=
  if 'A' ≤ c ∧ c ≤ 'Z' then Char.ofNat (c.toNat + 32) else c

/-- Lower-case an entire string (ASCII). -/
def strLower (s : String) : String := String.mk (s.data.map toLowerChar)

/-- `_ppd_strcasecmp(a, b) == 0`: ASCII case-insensitive string equality. -/
def strCaseEq (a b : String) : Bool := strLower a == strLower b

/-- C `isspace` on the default locale (the six standard white-space chars). -/
def isSpaceC (c : Char) : Bool :=
  c = ' ' ∨ c = '\t' ∨ c = '\n' ∨ c = '\x0b' ∨ c = '\x0c' ∨ c = '\r'

/-- Accumulate a decimal digit run into a natural number. -/
def natOfDigits (l : List Char) : Nat :=
  l.foldl (fun a c => 10 * a + (c.toNat - 48)) 0

/-- C `atoi`: skip leading white space, optional sign, then a run of decimal
digits; everything after the first non-digit is ignored, no digits at all
gives 0.  (Overflow is undefined behaviour in C and unbounded here.) -/
def atoiChars (cs : List Char) : Int :=
  let l := cs.dropWhile isSpaceC
  match l with
  | '-' :: t => -(Int.ofNat (natOfDigits (t.takeWhile Char.isDigit)))
  | '+' :: t => Int.ofNat (natOfDigits (t.takeWhile Char.isDigit))
  | _        => Int.ofNat (natOfDigits (l.takeWhile Char.isDigit))

/-- C `atoi` on a string. -/
def atoi (s : String) : Int := atoiChars s.data

/-- Modelled from the spec: the numeric version of the cache-file magic header
`#CUPS-PPD-CACHE-<version>`.  `PPD_CACHE_VERSION` is defined in `ppd/ppd.h`,
which is not among the provided sources; the spec fixes only that the version
is matched exactly, so every theorem below is independent of this value. -/
def PPD_CACHE_VERSION : Int := 11

/-- The two header-validation steps of `ppdCacheCreateWithFile`
(ppd-cache.c:685-700): `strncmp(line, "#CUPS-PPD-CACHE-", 16)` rejects a first
line without the 16-character magic prefix with `"Bad PPD cache file."`, then
`atoi(line + 16) != PPD_CACHE_VERSION` rejects a version mismatch with
`"Out of date PPD cache file."`. -/
def checkCacheHeader (line : String) : Except String Unit :=
  if line.data.take 16 ≠ "#CUPS-PPD-CACHE-".data then
    Except.error "Bad PPD cache file."
  else if atoiChars (line.data.drop 16) ≠ PPD_CACHE_VERSION then
    Except.error "Out of date PPD cache file."
  else
    Except.ok ()

/-- The monochrome-fallback substitution of `ppdConvertOptions`
(ppd-cache.c:420-427, and identically 284-298 for mandatory
`print-color-mode`): once the color mode has been resolved to a keyword, a
`"monochrome"` keyword is replaced by `"auto-monochrome"` whenever the
destination supports it, else by `"process-monochrome"` when that is supported
and the literal `"monochrome"` is not.  `sup` is the destination's
`print-color-mode-supported` keyword list (`ippContainsString` is exact string
match; a `NULL` attribute is the empty list). -/
def resolveColorModeKeyword (sup : List String) (keyword : String) : String :=
  if keyword = "monochrome" then
    if sup.contains "auto-monochrome" then "auto-monochrome"
    else if sup.contains "process-monochrome" ∧ ¬ sup.contains "monochrome" then
      "process-monochrome"
    else keyword
  else keyword

/-- `ppdPwgPpdizeName` (ppd-cache.c:4809-4844): convert an IPP keyword to a
PPD keyword.  Buffer truncation (`ptr < end`) is not modelled; the callers in
the claims pass buffers of at least `PPD_MAX_NAME` bytes and short keywords. -/
def ppdPwgPpdizeNameChars : List Char → List Char
  | [] => []
  | '-' :: c :: t =>
      if c.isAlphanum then c.toUpper :: ppdPwgPpdizeNameChars t
      else ppdPwgPpdizeNameChars (c :: t)
  | '-' :: [] => ppdPwgPpdizeNameChars []
  | c :: t =>
      if c = '_' ∨ c = '.' ∨ c.isAlphanum then c :: ppdPwgPpdizeNameChars t
      else ppdPwgPpdizeNameChars t

/-- `ppdPwgPpdizeName`, wrapper on strings: an empty or non-alphanumeric-led
keyword gives the empty name, otherwise the first character is upper-cased and
the rest is filtered as in the C loop. -/
def ppdPwgPpdizeName (ipp : String) : String :=
  match ipp.data with
  | [] => ""
  | c :: t =>
      if c.isAlphanum then String.mk (c.toUpper :: ppdPwgPpdizeNameChars t)
      else ""

/-- `ppdPwgInputSlotForSource` (ppd-cache.c:4539-4578) with the buffer
abstracted away (the C function also returns `NULL` when `media_source` is
`NULL` or the buffer is smaller than `PPD_MAX_NAME`; all the strings written
here are shorter than that, so `strlcpy` never truncates).  Each branch guard
is the bare `_ppd_strcasecmp(...)` exactly as in the source, which is non-zero
— true — whenever the two strings differ. -/
def ppdPwgInputSlotForSource (media_source : String) : String :=
  if ¬ strCaseEq media_source "main" then "Cassette"
  else if ¬ strCaseEq media_source "alternate" then "Multipurpose"
  else if ¬ strCaseEq media_source "large-capacity" then "LargeCapacity"
  else if ¬ strCaseEq media_source "bottom" then "Lower"
  else if ¬ strCaseEq media_source "middle" then "Middle"
  else if ¬ strCaseEq media_source "top" then "Upper"
  else if ¬ strCaseEq media_source "rear" then "Rear"
  else if ¬ strCaseEq media_source "side" then "Side"
  else if ¬ strCaseEq media_source "envelope" then "Envelope"
  else if ¬ strCaseEq media_source "main-roll" then "Roll"
  else if ¬ strCaseEq media_source "alternate-roll" then "Roll2"
  else ppdPwgPpdizeName media_source

/-! ## Size table entries and the size-merging step of `ppdCacheCreateWithPPD` -/

/-- One entry of the size table: canonical (PWG) name, device (PPD) name, and
the physical width/length/margins in 1/2540-inch units (`pwg_size_t`). -/
structure PwgSize where
  pwg : String
  ppd : String
  width : Int
  length : Int
  left : Int
  bottom : Int
  right : Int
  top : Int
deriving DecidableEq, Repr

/-- `_PPD_PWG_EQUIVALENT(x, y)` (ppd-cache.c:30): `abs(x - y) < 50`. -/
def pwgEquivalent (x y : Int) : Bool := (x - y).natAbs < 50

/-- Imageable length of a size entry: `length - top - bottom`
(ppd-cache.c:1377,1386). -/
def imageableLength (s : PwgSize) : Int := s.length - s.top - s.bottom

/-- A size is borderless when all four margins are zero
(ppd-cache.c:1378-1379,1387-1388). -/
def isBorderless (s : PwgSize) : Bool :=
  s.left = 0 ∧ s.bottom = 0 ∧ s.right = 0 ∧ s.top = 0

/-- A canonical name is well-known when it does not start with the vendor
class prefixes `oe_`/`om_` (ppd-cache.c:1389-1390). -/
def isKnownPwgName (pwg : String) : Bool :=
  ¬ pwg.take 3 = "oe_" ∧ ¬ pwg.take 3 = "om_"

/-- The similarity test of the size-merging loop (ppd-cache.c:1392-1394): the
old and new entry have the same borderless state and width and length each
within the 50-unit epsilon. -/
def similarSizes (old nw : PwgSize) : Bool :=
  isBorderless old = isBorderless nw &&
  pwgEquivalent old.width nw.width &&
  pwgEquivalent old.length nw.length

/-- The per-size merging step of `ppdCacheCreateWithPPD`
(ppd-cache.c:1381-1437): scan the already-built table for the first similar
entry; when one exists, replace it in place when the new size carries a
well-known PWG name or has a larger imageable length against a non-well-known
old name, and otherwise drop the new size; when no entry is similar, append
the new size at the end.  `nw.width`/`nw.length` are the values after the
`pwgMediaForSize` conversion of the device dimensions (an external standard
media table: for dimensions that match no standard size it returns them
unchanged), `newKnown` is the `new_known_pwg` flag computed at
ppd-cache.c:1334-1358. -/
def addSizeEntry (sizes : List PwgSize) (nw : PwgSize) (newKnown : Bool) :
    List PwgSize :=
  match sizes with
  | [] => [nw]
  | old :: rest =>
      if similarSizes old nw then
        if newKnown ∨ (¬ isKnownPwgName old.pwg ∧
                       imageableLength nw > imageableLength old) then
          nw :: rest
        else
          old :: rest
      else
        old :: addSizeEntry rest nw newKnown

/-! ## The custom-size branch of `ppdCacheGetSize2` -/

/-- An exact (not necessarily reduced) fraction, standing in for the C
`double` values of the custom-size parser.  Every arithmetic step performed on
the claims' inputs is exact in binary floating point as well, so the fraction
model computes the very values the C code computes. -/
structure Frac where
  num : Int
  den : Nat
deriving DecidableEq, Repr

/-- Fraction multiplication (no normalization needed: the C cast at the end
only divides). -/
def mulFrac (a b : Frac) : Frac := ⟨a.num * b.num, a.den * b.den⟩

/-- The C cast `(int)` of a double: truncation toward zero (the denominator
of every fraction built below is positive). -/
def cIntOfFrac (f : Frac) : Int :=
  if f.num < 0 then -(Int.ofNat (f.num.natAbs / f.den))
  else Int.ofNat (f.num.natAbs / f.den)

/-- Modelled from the spec: `_ppdStrScand` (string-private.c, which is not
among the provided sources) scans a plain decimal number — optional sign,
integer digits, optional locale decimal point and fraction digits — returning
its value and the rest of the input; when no digit is consumed it returns 0 at
the original position. -/
def scanNumber (l : List Char) : Frac × List Char :=
  let sgn : Int := match l with
    | '-' :: _ => -1
    | _ => 1
  let l1 := match l with
    | '-' :: t => t
    | '+' :: t => t
    | _ => l
  let ds := l1.takeWhile Char.isDigit
  let r1 := l1.dropWhile Char.isDigit
  match r1 with
  | '.' :: t =>
      let fs := t.takeWhile Char.isDigit
      let r2 := t.dropWhile Char.isDigit
      if ds.isEmpty ∧ fs.isEmpty then (⟨0, 1⟩, l)
      else (⟨sgn * (natOfDigits ds * 10 ^ fs.length + natOfDigits fs),
             10 ^ fs.length⟩, r2)
  | _ =>
      if ds.isEmpty then (⟨0, 1⟩, l)
      else (⟨sgn * natOfDigits ds, 1⟩, r1)

/-- Case-insensitive comparison of a character-list tail against a literal,
`_ppd_strcasecmp(ptr, lit) == 0` for the unit-suffix tests. -/
def tailCaseEq (l : List Char) (lit : String) : Bool :=
  strCaseEq (String.mk l) lit

/-- The custom-size branch of `ppdCacheGetSize2` (ppd-cache.c:4114-4192),
returning the width/length stored into `pc->custom_size` in 1/2540-inch
units.  A `page_size` equal to `"Custom"` (no sub-specification, and the
`ppd_size` argument `NULL`, as in the claim) and a malformed specification
both return `NULL`.  The unit factors are exactly the source's: `in` 2540,
`ft` 12*2540, `mm` 100, `cm` 1000, `m` 100000, anything else (points)
2540/72. -/
def ppdCacheGetSize2Custom (page_size : String) : Option (Int × Int) :=
  if strCaseEq page_size "Custom" ∨ strCaseEq (page_size.take 7) "Custom." then
    match page_size.data.drop 6 with
    | [] => none
    | _ :: _ =>
        let s1 := scanNumber (page_size.data.drop 7)
        match s1.2 with
        | 'x' :: r2 =>
            let s2 := scanNumber r2
            let w := s1.1
            let l := s2.1
            let r3 := s2.2
            let factor : Frac :=
              if tailCaseEq r3 "in" then ⟨2540, 1⟩
              else if tailCaseEq r3 "ft" then ⟨12 * 2540, 1⟩
              else if tailCaseEq r3 "mm" then ⟨100, 1⟩
              else if tailCaseEq r3 "cm" then ⟨1000, 1⟩
              else if tailCaseEq r3 "m" then ⟨100000, 1⟩
              else ⟨2540, 72⟩
            some (cIntOfFrac (mulFrac w factor), cIntOfFrac (mulFrac l factor))
        | _ => none
  else none

/-! ## `ppdCacheGetFinishingValues` -/

/-- One entry of the finishings table (`ppd_pwg_finishings_t`): the IPP
finishings enum value and the PPD option/choice pairs that produce it. -/
structure PpdFinishings where
  value : Int
  options : List (String × String)
deriving DecidableEq, Repr

/-- `IPP_FINISHINGS_NONE` (value 3 in the IPP registry). -/
def IPP_FINISHINGS_NONE : Int := 3

/-- The inner loop of `ppdCacheGetFinishingValues` (ppd-cache.c:3574-3585):
an entry matches when every one of its option/value pairs has a marked choice
in the PPD (`ppdFindMarkedChoice`, abstracted as the map `marked` from option
name to marked choice name) that equals the required value case-insensitively. -/
def allPairsMarked (marked : String → Option String) (f : PpdFinishings) :
    Bool :=
  f.options.all fun p =>
    match marked p.1 with
    | none => false
    | some c => strCaseEq p.2 c

/-- The scanning loop of `ppdCacheGetFinishingValues` (ppd-cache.c:3567-3597)
with `budget` remaining output slots (`max_values - num_values`, at least 1 on
entry): append each matching entry's value, stopping once the output array is
full. -/
def scanFinishings (marked : String → Option String) :
    List PpdFinishings → Nat → List Int
  | [], _ => []
  | f :: t, budget =>
      if allPairsMarked marked f then
        f.value :: (if budget = 1 then [] else scanFinishings marked t (budget - 1))
      else
        scanFinishings marked t budget

/-- `ppdCacheGetFinishingValues` (ppd-cache.c:3531-3613): the guards return no
values when `max_values < 1` or the cache has no finishings table (a `NULL`
array — both constructors only create the array non-empty, so `NULL` is
modelled as the empty list); otherwise every finishings entry whose required
option/value pairs are all marked is reported, capped at `max_values`, and
when nothing matched the single sentinel `IPP_FINISHINGS_NONE` is returned. -/
def ppdCacheGetFinishingValues (marked : String → Option String)
    (finishings : List PpdFinishings) (maxValues : Int) : List Int :=
  if maxValues < 1 then []
  else if finishings.isEmpty then []
  else
    let vals := scanFinishings marked finishings maxValues.toNat
    if vals.isEmpty then [IPP_FINISHINGS_NONE] else vals

/-! ## The cache aggregate, the serializer and the reader

The on-disk format is line oriented: `cupsFileGetConf` splits every line into
a leading keyword and a value string, and the per-keyword handlers re-parse
the value with `sscanf`/`atoi`/`strtol`/`cupsParseOptions`.  The embedding
works one level above the raw characters: a `CacheLine` is the
keyword-dispatched, value-parsed form of one line.  The correspondence with
the text is exact whenever the string payloads are single tokens (non-empty,
free of white space, within the `sscanf` field widths `%127s`/`%40s`) — the
well-formedness hypotheses of the round-trip theorem state precisely these
conditions, under which `printf` followed by token splitting is the identity.
The embedded IPP attribute blob is carried as its raw byte list; its
`ippWriteIO` encoding is written right after the `IPP <byte-length>` line and
`ippReadIO` consumes exactly the blob's bytes on well-formed data, so the
cursor check `cupsFileTell(fp) != pos + length` becomes a comparison of the
declared length with the byte count. -/

/-- One entry of a bin/source/type mapping table (`pwg_map_t`): canonical
(PWG) keyword and device (PPD) keyword. -/
structure PwgMap where
  pwg : String
  ppd : String
deriving DecidableEq, Repr

/-- The PPD cache aggregate (`ppd_cache_t`), restricted to the fields that
`ppdCacheWriteFile` writes and `ppdCacheCreateWithFile` reads.  `NULL` string
fields are `none`; `NULL` arrays are empty lists; the presets grid is indexed
by the 2 print color modes and 3 print qualities, the optimize presets by the
4 content-optimization classes. -/
structure PpdCache where
  bins : List PwgMap
  sizes : List PwgSize
  customMaxWidth : Int
  customMaxLength : Int
  customMinWidth : Int
  customMinLength : Int
  customLeft : Int
  customBottom : Int
  customRight : Int
  customTop : Int
  customMaxKeyword : Option String
  customMinKeyword : Option String
  sourceOption : Option String
  sources : List PwgMap
  types : List PwgMap
  presets : Fin 2 → Fin 3 → List (String × String)
  optimizePresets : Fin 4 → List (String × String)
  sidesOption : Option String
  sides1Sided : Option String
  sides2SidedLong : Option String
  sides2SidedShort : Option String
  product : Option String
  filters : List String
  prefilters : List String
  singleFile : Bool
  finishings : List PpdFinishings
  templates : List String
  maxCopies : Int
  chargeInfoUri : Option String
  accountId : Bool
  accountingUserId : Bool
  password : Option String
  mandatory : List String
  supportFiles : List String

/-- The zero-initialized cache of the reader (`calloc` at ppd-cache.c:706)
before `pc->max_copies = 9999` is applied. -/
def emptyCache : PpdCache where
  bins := []
  sizes := []
  customMaxWidth := 0
  customMaxLength := 0
  customMinWidth := 0
  customMinLength := 0
  customLeft := 0
  customBottom := 0
  customRight := 0
  customTop := 0
  customMaxKeyword := none
  customMinKeyword := none
  sourceOption := none
  sources := []
  types := []
  presets := fun _ _ => []
  optimizePresets := fun _ => []
  sidesOption := none
  sides1Sided := none
  sides2SidedLong := none
  sides2SidedShort := none
  product := none
  filters := []
  prefilters := []
  singleFile := false
  finishings := []
  templates := []
  maxCopies := 0
  chargeInfoUri := none
  accountId := false
  accountingUserId := false
  password := none
  mandatory := []
  supportFiles := []

/-- One parsed directive line of a cache file (see the section comment for
the correspondence with the text format). -/
inductive CacheLine where
  | filter (v : String)
  | prefilter (v : String)
  | product (v : String)
  | singleFile (v : String)
  | ipp (declaredLength : Int) (bytes : List UInt8)
  | numBins (n : Int)
  | bin (pwg ppd : String)
  | numSizes (n : Int)
  | size (pwg ppd : String) (width length left bottom right top : Int)
  | customSize (maxw maxl minw minl left bottom right top : Int)
  | sourceOption (v : String)
  | numSources (n : Int)
  | source (pwg ppd : String)
  | numTypes (n : Int)
  | mtype (pwg ppd : String)
  | preset (colorMode quality : Int) (opts : List (String × String))
  | optimizePreset (contentClass : Int) (opts : List (String × String))
  | sidesOption (v : String)
  | sides1Sided (v : String)
  | sides2SidedLong (v : String)
  | sides2SidedShort (v : String)
  | finishings (value : Int) (opts : List (String × String))
  | finishingTemplate (v : String)
  | maxCopies (n : Int)
  | chargeInfoUri (v : String)
  | jobAccountId (v : String)
  | jobAccountingUserId (v : String)
  | jobPassword (v : String)
  | mandatory (v : String)
  | supportFile (v : String)
  | unknown (key v : String)
deriving DecidableEq, Repr

/-- A cache file: the first line (raw, for the magic-header check) and the
directive lines after it. -/
structure CacheFile where
  header : String
  lines : List CacheLine
deriving DecidableEq, Repr

/-- Modelled from the spec: `pwgFormatSizeName` (an external standard-media
helper from the protocol library) synthesizes the canonical
`custom_<min|max>_<width>x<length>` keyword for the custom-size bounds read
back from a cache file; only its presence, not its exact spelling, matters to
the claims. -/
def pwgFormatSizeNameCustom (minmax : String) (w l : Int) : String :=
  "custom_" ++ minmax ++ "_" ++ toString w ++ "x" ++ toString l

/-- The reader's loop state: the cache under construction, the declared
counts of the four `Num*` directives (the function-local `num_bins`,
`num_sizes`, `num_sources`, `num_types`, all starting at 0), and the IPP
attribute blob read so far (the caller's `*attrs`; the embedding fixes a
caller that does request the attributes, `attrs != NULL`). -/
structure ReaderState where
  pc : PpdCache
  numBins : Int
  numSizes : Int
  numSources : Int
  numTypes : Int
  attrs : Option (List UInt8)

/-- The initial reader state (ppd-cache.c:706-723): zeroed cache with
`max_copies` preset to 9999, zero declared counts, no attributes yet. -/
def initReaderState : ReaderState where
  pc := { emptyCache with maxCopies := 9999 }
  numBins := 0
  numSizes := 0
  numSources := 0
  numTypes := 0
  attrs := none

/-- Store a preset cell, the effect of `cupsParseOptions` into
`pc->presets[cm] + q` with a zero running count (ppd-cache.c:1074-1076): the
cell is replaced.  The guards of the caller ensure `0 ≤ cm < 2` and
`0 ≤ q < 3`. -/
def setPreset (pc : PpdCache) (cm q : Int) (opts : List (String × String)) :
    PpdCache :=
  { pc with presets := fun i j =>
      if (i.val : Int) = cm ∧ (j.val : Int) = q then opts else pc.presets i j }

/-- Store an optimize-preset cell (ppd-cache.c:1097-1099). -/
def setOptimizePreset (pc : PpdCache) (cls : Int)
    (opts : List (String × String)) : PpdCache :=
  { pc with optimizePresets := fun i =>
      if (i.val : Int) = cls then opts else pc.optimizePresets i }

/-- The "Bad PPD cache file." error. -/
def badCache : String := "Bad PPD cache file."

/-- One iteration of the read loop of `ppdCacheCreateWithFile`
(ppd-cache.c:725-1166): dispatch on the directive keyword.  Each branch
follows the source in order; the `pwg ≠ "" ∧ ppd ≠ ""` guards are the
`sscanf(value, "%127s%40s", ...) != 2` checks (a missing second token), and
the `unknown` branch is the forward-compatibility fall-through that ignores
unrecognized keywords. -/
def readCacheLine (st : ReaderState) (l : CacheLine) :
    Except String ReaderState :=
  match l with
  | .filter v => .ok { st with pc := { st.pc with filters := st.pc.filters ++ [v] } }
  | .prefilter v => .ok { st with pc := { st.pc with prefilters := st.pc.prefilters ++ [v] } }
  | .product v =>
      if st.pc.product = none then
        .ok { st with pc := { st.pc with product := some v } }
      else
        .ok st
  | .singleFile v =>
      .ok { st with pc := { st.pc with singleFile := strCaseEq v "true" } }
  | .ipp len bytes =>
      if st.attrs.isSome then .error badCache
      else if len ≤ 0 then .error badCache
      else if (bytes.length : Int) ≠ len then .error badCache
      else .ok { st with attrs := some bytes }
  | .numBins n =>
      if st.numBins > 0 then .error badCache
      else if n ≤ 0 ∨ n > 65536 then .error badCache
      else .ok { st with numBins := n }
  | .bin pwg ppd =>
      if pwg = "" ∨ ppd = "" then .error badCache
      else if (st.pc.bins.length : Int) ≥ st.numBins then .error badCache
      else .ok { st with pc := { st.pc with bins := st.pc.bins ++ [⟨pwg, ppd⟩] } }
  | .numSizes n =>
      if st.numSizes > 0 then .error badCache
      else if n < 0 ∨ n > 65536 then .error badCache
      else .ok { st with numSizes := n }
  | .size pwg ppd w len le bo ri tp =>
      if (st.pc.sizes.length : Int) ≥ st.numSizes then .error badCache
      else if pwg = "" ∨ ppd = "" then .error badCache
      else .ok { st with pc := { st.pc with
        sizes := st.pc.sizes ++ [⟨pwg, ppd, w, len, le, bo, ri, tp⟩] } }
  | .customSize maxw maxl minw minl le bo ri tp =>
      if st.pc.customMaxWidth > 0 then .error badCache
      else .ok { st with pc := { st.pc with
        customMaxWidth := maxw, customMaxLength := maxl,
        customMinWidth := minw, customMinLength := minl,
        customLeft := le, customBottom := bo,
        customRight := ri, customTop := tp,
        customMaxKeyword := some (pwgFormatSizeNameCustom "max" maxw maxl),
        customMinKeyword := some (pwgFormatSizeNameCustom "min" minw minl) } }
  | .sourceOption v =>
      .ok { st with pc := { st.pc with sourceOption := some v } }
  | .numSources n =>
      if st.numSources > 0 then .error badCache
      else if n ≤ 0 ∨ n > 65536 then .error badCache
      else .ok { st with numSources := n }
  | .source pwg ppd =>
      if pwg = "" ∨ ppd = "" then .error badCache
      else if (st.pc.sources.length : Int) ≥ st.numSources then .error badCache
      else .ok { st with pc := { st.pc with sources := st.pc.sources ++ [⟨pwg, ppd⟩] } }
  | .numTypes n =>
      if st.numTypes > 0 then .error badCache
      else if n ≤ 0 ∨ n > 65536 then .error badCache
      else .ok { st with numTypes := n }
  | .mtype pwg ppd =>
      if pwg = "" ∨ ppd = "" then .error badCache
      else if (st.pc.types.length : Int) ≥ st.numTypes then .error badCache
      else .ok { st with pc := { st.pc with types := st.pc.types ++ [⟨pwg, ppd⟩] } }
  | .preset cm q opts =>
      if cm < 0 ∨ cm ≥ 2 ∨ q < 0 ∨ q ≥ 3 ∨ opts = [] then .error badCache
      else .ok { st with pc := setPreset st.pc cm q opts }
  | .optimizePreset cls opts =>
      if cls < 0 ∨ cls ≥ 4 ∨ opts = [] then .error badCache
      else .ok { st with pc := setOptimizePreset st.pc cls opts }
  | .sidesOption v => .ok { st with pc := { st.pc with sidesOption := some v } }
  | .sides1Sided v => .ok { st with pc := { st.pc with sides1Sided := some v } }
  | .sides2SidedLong v => .ok { st with pc := { st.pc with sides2SidedLong := some v } }
  | .sides2SidedShort v => .ok { st with pc := { st.pc with sides2SidedShort := some v } }
  | .finishings value opts =>
      .ok { st with pc := { st.pc with finishings := st.pc.finishings ++ [⟨value, opts⟩] } }
  | .finishingTemplate v =>
      .ok { st with pc := { st.pc with templates := st.pc.templates ++ [v] } }
  | .maxCopies n => .ok { st with pc := { st.pc with maxCopies := n } }
  | .chargeInfoUri v => .ok { st with pc := { st.pc with chargeInfoUri := some v } }
  | .jobAccountId v =>
      .ok { st with pc := { st.pc with accountId := strCaseEq v "true" } }
  | .jobAccountingUserId v =>
      .ok { st with pc := { st.pc with accountingUserId := strCaseEq v "true" } }
  | .jobPassword v => .ok { st with pc := { st.pc with password := some v } }
  | .mandatory v =>
      .ok { st with pc := { st.pc with mandatory := st.pc.mandatory ++ [v] } }
  | .supportFile v =>
      .ok { st with pc := { st.pc with supportFiles := st.pc.supportFiles ++ [v] } }
  | .unknown _ _ => .ok st

/-- The read loop: process the directive lines in order, stopping at the
first failure. -/
def readCacheLines : ReaderState → List CacheLine → Except String ReaderState
  | st, [] => .ok st
  | st, l :: ls =>
      match readCacheLine st l with
      | .ok st2 => readCacheLines st2 ls
      | .error e => .error e

/-- The post-loop validation of `ppdCacheCreateWithFile`
(ppd-cache.c:1168-1190): fewer sizes, sources or types than declared is a
failure.  (There is no corresponding check for bins.) -/
def finishRead (st : ReaderState) : Except String ReaderState :=
  if (st.pc.sizes.length : Int) < st.numSizes then .error badCache
  else if (st.pc.sources.length : Int) < st.numSources then .error badCache
  else if (st.pc.types.length : Int) < st.numTypes then .error badCache
  else .ok st

/-- The body of `ppdCacheCreateWithFile` after the header validation: run
the read loop, run the post-loop count validation, and return the cache
together with the attribute blob (if any). -/
def readAfterHeader (lines : List CacheLine) :
    Except String (PpdCache × Option (List UInt8)) :=
  match readCacheLines initReaderState lines with
  | .error e => .error e
  | .ok st =>
      match finishRead st with
      | .error e => .error e
      | .ok st2 => .ok (st2.pc, st2.attrs)

/-- `ppdCacheCreateWithFile` (ppd-cache.c:621-1212), for a caller that
requests the IPP attributes: validate the magic header and version, then
process the directive lines. -/
def ppdCacheCreateWithFile (f : CacheFile) :
    Except String (PpdCache × Option (List UInt8)) :=
  match checkCacheHeader f.header with
  | .error e => .error e
  | .ok _ => readAfterHeader f.lines

/-- A singleton line for an optional string field, written only when the
field is non-`NULL`. -/
def optLine (f : String → CacheLine) : Option String → List CacheLine
  | none => []
  | some v => [f v]

/-- The preset lines of the writer (ppd-cache.c:4392-4403): one `Preset`
line per non-empty cell, color modes outer, qualities inner, in increasing
order. -/
def presetLines (pc : PpdCache) : List CacheLine :=
  (List.finRange 2).flatMap fun i =>
    (List.finRange 3).filterMap fun j =>
      if pc.presets i j = [] then none
      else some (CacheLine.preset (i.val : Int) (j.val : Int) (pc.presets i j))

/-- The optimize-preset lines of the writer (ppd-cache.c:4409-4419). -/
def optimizePresetLines (pc : PpdCache) : List CacheLine :=
  (List.finRange 4).filterMap fun i =>
    if pc.optimizePresets i = [] then none
    else some (CacheLine.optimizePreset (i.val : Int) (pc.optimizePresets i))

/-- The bins block of the writer (ppd-cache.c:4340-4345): count line and one
`Bin` line per entry, written only when the table is non-empty. -/
def binsLines (pc : PpdCache) : List CacheLine :=
  if pc.bins.length > 0 then
    CacheLine.numBins (pc.bins.length : Int) ::
      pc.bins.map (fun m => CacheLine.bin m.pwg m.ppd)
  else []

/-- The sizes block of the writer (ppd-cache.c:4351-4355): the count line is
written unconditionally. -/
def sizesLines (pc : PpdCache) : List CacheLine :=
  CacheLine.numSizes (pc.sizes.length : Int) ::
    pc.sizes.map (fun s =>
      CacheLine.size s.pwg s.ppd s.width s.length s.left s.bottom s.right s.top)

/-- The optional custom-size bounds line of the writer
(ppd-cache.c:4356-4361). -/
def customLines (pc : PpdCache) : List CacheLine :=
  if pc.customMaxWidth > 0 then
    [CacheLine.customSize pc.customMaxWidth pc.customMaxLength
       pc.customMinWidth pc.customMinLength
       pc.customLeft pc.customBottom pc.customRight pc.customTop]
  else []

/-- The sources block of the writer (ppd-cache.c:4370-4375). -/
def sourcesLines (pc : PpdCache) : List CacheLine :=
  if pc.sources.length > 0 then
    CacheLine.numSources (pc.sources.length : Int) ::
      pc.sources.map (fun m => CacheLine.source m.pwg m.ppd)
  else []

/-- The types block of the writer (ppd-cache.c:4381-4386). -/
def typesLines (pc : PpdCache) : List CacheLine :=
  if pc.types.length > 0 then
    CacheLine.numTypes (pc.types.length : Int) ::
      pc.types.map (fun m => CacheLine.mtype m.pwg m.ppd)
  else []

/-- The lines of the writer between the types block and the IPP blob
(ppd-cache.c:4392-4505): presets, optimize presets, duplex names, product,
filters, prefilters, the single-file flag, finishings, finishing templates,
max copies and the accounting fields, the mandatory-attribute and
support-file lists. -/
def middleLines (pc : PpdCache) : List CacheLine :=
  presetLines pc ++
  optimizePresetLines pc ++
  optLine CacheLine.sidesOption pc.sidesOption ++
  optLine CacheLine.sides1Sided pc.sides1Sided ++
  optLine CacheLine.sides2SidedLong pc.sides2SidedLong ++
  optLine CacheLine.sides2SidedShort pc.sides2SidedShort ++
  optLine CacheLine.product pc.product ++
  pc.filters.map CacheLine.filter ++
  pc.prefilters.map CacheLine.prefilter ++
  [CacheLine.singleFile (if pc.singleFile then "true" else "false")] ++
  pc.finishings.map (fun f => CacheLine.finishings f.value f.options) ++
  pc.templates.map CacheLine.finishingTemplate ++
  [CacheLine.maxCopies pc.maxCopies] ++
  optLine CacheLine.chargeInfoUri pc.chargeInfoUri ++
  [CacheLine.jobAccountId (if pc.accountId then "true" else "false"),
   CacheLine.jobAccountingUserId (if pc.accountingUserId then "true" else "false")] ++
  optLine CacheLine.jobPassword pc.password ++
  pc.mandatory.map CacheLine.mandatory ++
  pc.supportFiles.map CacheLine.supportFile

/-- The IPP blob of the writer (ppd-cache.c:4511-4517): the attribute bytes
preceded by their exact count (`ippGetLength`, which is the number of bytes
`ippWriteIO` then emits). -/
def ippLines (attrs : Option (List UInt8)) : List CacheLine :=
  match attrs with
  | some bytes => [CacheLine.ipp (bytes.length : Int) bytes]
  | none => []

/-- The directive lines emitted by `ppdCacheWriteFile`
(ppd-cache.c:4334-4517), in the source's order. -/
def writeCacheLines (pc : PpdCache) (attrs : Option (List UInt8)) :
    List CacheLine :=
  binsLines pc ++ sizesLines pc ++ customLines pc ++
  optLine CacheLine.sourceOption pc.sourceOption ++
  sourcesLines pc ++ typesLines pc ++ middleLines pc ++ ippLines attrs

/-- The content `ppdCacheWriteFile` produces: the versioned magic header
line (ppd-cache.c:4334) followed by the directive lines. -/
def ppdCacheWriteFile (pc : PpdCache) (attrs : Option (List UInt8)) :
    CacheFile :=
  ⟨"#CUPS-PPD-CACHE-" ++ toString PPD_CACHE_VERSION, writeCacheLines pc attrs⟩

/-! ## The file-replacement skeleton of `ppdCacheWriteFile`

The path-level behaviour of `ppdCacheWriteFile` (ppd-cache.c:4319-4330 and
4519-4530): write everything to the sibling `<filename>.N`, then
`cupsFileClose`; on close failure, `unlink` the temporary and fail; on
success, `unlink(filename)` and then `rename(newfile, filename)`.  The file
system is a map from path to optional content; `openOk`, `closeOk` and
`renameOk` model the success of `cupsFileOpen` (failure of the buffered,
compressed writes surfaces at `cupsFileClose`) and of `rename`. -/

/-- A file system: each path holds some content or nothing. -/
structure FileSystem where
  files : String → Option CacheFile

/-- Write or replace one path. -/
def fsSet (fs : FileSystem) (path : String) (content : CacheFile) :
    FileSystem :=
  ⟨fun p => if p = path then some content else fs.files p⟩

/-- `unlink` one path. -/
def fsRemove (fs : FileSystem) (path : String) : FileSystem :=
  ⟨fun p => if p = path then none else fs.files p⟩

/-- The temporary sibling name `"%s.N"` (ppd-cache.c:4323). -/
def tempName (filename : String) : String := filename ++ ".N"

/-- Result of a write attempt: the resulting file system and the function's
`int` success return. -/
structure WriteOutcome where
  fs : FileSystem
  success : Bool

/-- The file-replacement skeleton of `ppdCacheWriteFile` (see the section
comment). -/
def ppdCacheWriteFileAtomic (fs : FileSystem) (filename : String)
    (content : CacheFile) (openOk closeOk renameOk : Bool) : WriteOutcome :=
  if ¬ openOk then ⟨fs, false⟩
  else
    let fs1 := fsSet fs (tempName filename) content
    if ¬ closeOk then ⟨fsRemove fs1 (tempName filename), false⟩
    else
      let fs2 := fsRemove fs1 filename
      if renameOk then
        ⟨fsSet (fsRemove fs2 (tempName filename)) filename content, true⟩
      else
        ⟨fs2, false⟩

/-- The error message of a failed computation, `none` on success: the
observable last-error slot of the model. -/
def errOf {α : Type} : Except String α → Option String
  | .error e => some e
  | .ok _ => none

/-- A mapping-table keyword that survives the text round trip untouched:
non-empty, no white space (it is printed with `%s` between single spaces and
read back with `%s` token scanning), and within the `sscanf` field width
(`%127s` for canonical keywords, `%40s` for device keywords, which would
otherwise truncate and desynchronize the token stream). -/
def TokenOk (maxLen : Nat) (s : String) : Prop :=
  s ≠ "" ∧ s.length ≤ maxLen ∧ ∀ c ∈ s.data, isSpaceC c = false

/-- Well-formedness of a cache for the write/read round trip: the table
names are round-trippable tokens and the declared counts pass the reader's
`> 65536` sanity bound.  Every cache built by `ppdCacheCreateWithPPD`
satisfies these: PPD keywords are at most 40 characters of printable
non-space text, the canonical names the builder synthesizes fit well inside
127 characters, and a device description cannot declare more than 65536
choices per option. -/
def WfCache (pc : PpdCache) : Prop :=
  pc.bins.length ≤ 65536 ∧ pc.sizes.length ≤ 65536 ∧
  pc.sources.length ≤ 65536 ∧ pc.types.length ≤ 65536 ∧
  (∀ m ∈ pc.bins, TokenOk 127 m.pwg ∧ TokenOk 40 m.ppd) ∧
  (∀ s ∈ pc.sizes, TokenOk 127 s.pwg ∧ TokenOk 40 s.ppd) ∧
  (∀ m ∈ pc.sources, TokenOk 127 m.pwg ∧ TokenOk 40 m.ppd) ∧
  (∀ m ∈ pc.types, TokenOk 127 m.pwg ∧ TokenOk 40 m.ppd)

/-- Token well-formedness is checkable on concrete inputs. -/
instance (n : Nat) (s : String) : Decidable (TokenOk n s) := by
  unfold TokenOk
  infer_instance

/-- Cache well-formedness is checkable on concrete inputs. -/
instance (pc : PpdCache) : Decidable (WfCache pc) := by
  unfold WfCache
  infer_instance

/-- The reader-state fields that the round-trip and count-validation proofs
track across directive lines: the four tables, the four declared counts, and
the attribute blob. -/
def Preserves (st st2 : ReaderState) : Prop :=
  st2.pc.bins = st.pc.bins ∧ st2.pc.sizes = st.pc.sizes ∧
  st2.pc.sources = st.pc.sources ∧ st2.pc.types = st.pc.types ∧
  st2.numBins = st.numBins ∧ st2.numSizes = st.numSizes ∧
  st2.numSources = st.numSources ∧ st2.numTypes = st.numTypes ∧
  st2.attrs = st.attrs

/-- The count invariant of the read loop: the four tables never hold more
entries than their declared `Num*` counts (each detail-line handler refuses
an entry once the declared count is reached). -/
def CountInv (st : ReaderState) : Prop :=
  (st.pc.bins.length : Int) ≤ st.numBins ∧
  (st.pc.sizes.length : Int) ≤ st.numSizes ∧
  (st.pc.sources.length : Int) ≤ st.numSources ∧
  (st.pc.types.length : Int) ≤ st.numTypes

/-- The reader state after the writer's bins block. -/
def stAfterBins (pc : PpdCache) : ReaderState :=
  { initReaderState with
      numBins := (pc.bins.length : Int),
      pc := { initReaderState.pc with bins := pc.bins } }

/-- The reader state after the writer's bins and sizes blocks. -/
def stAfterSizes (pc : PpdCache) : ReaderState :=
  { stAfterBins pc with
      numSizes := (pc.sizes.length : Int),
      pc := { (stAfterBins pc).pc with sizes := pc.sizes } }

/-- The state change of reading a sources block. -/
def stAfterSources (st : ReaderState) (pc : PpdCache) : ReaderState :=
  { st with numSources := (pc.sources.length : Int),
            pc := { st.pc with sources := pc.sources } }

/-- The state change of reading a types block. -/
def stAfterTypes (st : ReaderState) (pc : PpdCache) : ReaderState :=
  { st with numTypes := (pc.types.length : Int),
            pc := { st.pc with types := pc.types } }

/-- Directive lines that can never fail and never touch the fields of
`Preserves`: everything except the table blocks, the custom-size bounds line
and the IPP blob.  `Preset`/`OptimizePreset` lines additionally need their
indices in range and a non-empty option list to pass the reader's checks —
exactly what the writer emits. -/
def BenignLine : CacheLine → Prop
  | .preset cm q opts => 0 ≤ cm ∧ cm < 2 ∧ 0 ≤ q ∧ q < 3 ∧ opts ≠ []
  | .optimizePreset cls opts => 0 ≤ cls ∧ cls < 4 ∧ opts ≠ []
  | .ipp _ _ => False
  | .numBins _ => False
  | .bin _ _ => False
  | .numSizes _ => False
  | .size _ _ _ _ _ _ _ _ => False
  | .customSize _ _ _ _ _ _ _ _ => False
  | .numSources _ => False
  | .source _ _ => False
  | .numTypes _ => False
  | .mtype _ _ => False
  | _ => True

/-! ## Max copies in `ppdCacheCreateWithPPD` -/

/-- The max-copies assignment of the builder `ppdCacheCreateWithPPD`
(ppd-cache.c:2274-2279): `atoi` of the `cupsMaxCopies` attribute when
present, else 1 for manual-copies devices, else 9999.  The attribute value is
stored unvalidated. -/
def builderMaxCopies (cupsMaxCopies : Option String) (manualCopies : Bool) :
    Int :=
  match cupsMaxCopies with
  | some v => atoi v
  | none => if manualCopies then 1 else 9999

/-! ## Concrete instances used by the witnesses and counterexamples -/

/-- An existing borderless size entry (all margins 0). -/
def c2SizeA : PwgSize := ⟨"oe_a_3.94x3.94in", "A", 10000, 10000, 0, 0, 0, 0⟩

/-- A new size entry with non-zero margins, width and length both 49 units
away from `c2SizeA`. -/
def c2SizeB : PwgSize := ⟨"oe_b_3.96x3.96in", "B", 10049, 10049, 100, 100, 100, 100⟩

/-- A marked-choice map with `StapleLocation` set to `UpperLeft`. -/
def c4Marked : String → Option String :=
  fun n => if n = "StapleLocation" then some "UpperLeft" else none

/-- A one-entry finishings table: staple upper-left (IPP value 4) requires
`StapleLocation=UpperLeft`. -/
def c4Finishings : List PpdFinishings :=
  [⟨4, [("StapleLocation", "UpperLeft")]⟩]

/-- A pre-existing cache-file content at the target path. -/
def c7OldContent : CacheFile := ⟨"#CUPS-PPD-CACHE-11", [CacheLine.maxCopies 1]⟩

/-- The freshly serialized content to be written. -/
def c7NewContent : CacheFile := ⟨"#CUPS-PPD-CACHE-11", [CacheLine.maxCopies 2]⟩

/-- A file system holding only the target path `"cache"`. -/
def c7FS : FileSystem :=
  ⟨fun p => if p = "cache" then some c7OldContent else none⟩

/-- Lines of a small valid cache file, used to witness the count
validation. -/
def c6WitnessLines : List CacheLine :=
  [CacheLine.numBins 1, CacheLine.bin "face-down" "FaceDown"]

/-- The reader state resulting from `c6WitnessLines`. -/
def c6WitnessState : ReaderState :=
  { initReaderState with
      numBins := 1,
      pc := { initReaderState.pc with bins := [⟨"face-down", "FaceDown"⟩] } }

/-- A small well-formed cache used to witness the round trip. -/
def c1SamplePC : PpdCache := { emptyCache with
  bins := [⟨"face-down", "FaceDown"⟩],
  sizes := [⟨"na_letter_8.5x11in", "Letter", 21590, 27940, 635, 508, 635, 508⟩],
  sources := [⟨"main", "Cassette"⟩, ⟨"by-pass-tray", "MP"⟩],
  types := [⟨"stationery", "Plain"⟩],
  sourceOption := some "InputSlot",
  maxCopies := 9999 }

/-! ## Theorems -/

/-- Lines proved benign never fail and never touch the tracked fields. -/
theorem preserves_refl (st : ReaderState) : Preserves st st :=
  ⟨rfl, rfl, rfl, rfl, rfl, rfl, rfl, rfl, rfl⟩

theorem preserves_trans {a b c : ReaderState} (h1 : Preserves a b)
    (h2 : Preserves b c) : Preserves a c := by
  obtain ⟨p1, p2, p3, p4, p5, p6, p7, p8, p9⟩ := h1
  obtain ⟨q1, q2, q3, q4, q5, q6, q7, q8, q9⟩ := h2
  exact ⟨q1.trans p1, q2.trans p2, q3.trans p3, q4.trans p4, q5.trans p5,
         q6.trans p6, q7.trans p7, q8.trans p8, q9.trans p9⟩

/-- C10 helper: a keyword case-equal to `"main"` is not case-equal to any
other keyword of the reverse mapping table. -/
theorem strCaseEq_of_main {s : String} (h : strCaseEq s "main" = true)
    {t : String} (ht : strLower t ≠ strLower "main") :
    strCaseEq s t = false := by
  have hs : strLower s = strLower "main" := by
    simpa [strCaseEq] using h
  simp only [strCaseEq, hs, beq_eq_false_iff_ne, ne_eq]
  exact fun he => ht he.symm

/-- Reading a concatenation processes the first part, then the second. -/
theorem readCacheLines_append (xs ys : List CacheLine) :
    ∀ st, readCacheLines st (xs ++ ys) =
      (readCacheLines st xs).bind (fun st2 => readCacheLines st2 ys) := by
  induction xs with
  | nil => intro st; rfl
  | cons l ls ih =>
      intro st
      simp only [List.cons_append, readCacheLines]
      cases h : readCacheLine st l with
      | ok st2 => exact ih st2
      | error e => rfl

/-- A benign line always succeeds and preserves the tracked fields. -/
theorem benign_step (l : CacheLine) (st : ReaderState) (hb : BenignLine l) :
    ∃ st2, readCacheLine st l = .ok st2 ∧ Preserves st st2 := by
  cases l with
  | filter v => exact ⟨_, rfl, rfl, rfl, rfl, rfl, rfl, rfl, rfl, rfl, rfl⟩
  | prefilter v => exact ⟨_, rfl, rfl, rfl, rfl, rfl, rfl, rfl, rfl, rfl, rfl⟩
  | product v =>
      by_cases hp : st.pc.product = none
      · refine ⟨{ st with pc := { st.pc with product := some v } },
          by simp [readCacheLine, hp], ?_⟩
        exact ⟨rfl, rfl, rfl, rfl, rfl, rfl, rfl, rfl, rfl⟩
      · exact ⟨st, by simp [readCacheLine, hp], preserves_refl st⟩
  | singleFile v => exact ⟨_, rfl, rfl, rfl, rfl, rfl, rfl, rfl, rfl, rfl, rfl⟩
  | ipp len bytes => exact hb.elim
  | numBins n => exact hb.elim
  | bin pwg ppd => exact hb.elim
  | numSizes n => exact hb.elim
  | size pwg ppd w len le bo ri tp => exact hb.elim
  | customSize maxw maxl minw minl le bo ri tp => exact hb.elim
  | sourceOption v => exact ⟨_, rfl, rfl, rfl, rfl, rfl, rfl, rfl, rfl, rfl, rfl⟩
  | numSources n => exact hb.elim
  | source pwg ppd => exact hb.elim
  | numTypes n => exact hb.elim
  | mtype pwg ppd => exact hb.elim
  | preset cm q opts =>
      obtain ⟨h1, h2, h3, h4, h5⟩ := hb
      have hc : ¬ (cm < 0 ∨ cm ≥ 2 ∨ q < 0 ∨ q ≥ 3 ∨ opts = []) := by
        push_neg
        exact ⟨by omega, by omega, by omega, by omega, h5⟩
      refine ⟨_, by simp only [readCacheLine]; rw [if_neg hc], ?_⟩
      exact ⟨rfl, rfl, rfl, rfl, rfl, rfl, rfl, rfl, rfl⟩
  | optimizePreset cls opts =>
      obtain ⟨h1, h2, h3⟩ := hb
      have hc : ¬ (cls < 0 ∨ cls ≥ 4 ∨ opts = []) := by
        push_neg
        exact ⟨by omega, by omega, h3⟩
      refine ⟨_, by simp only [readCacheLine]; rw [if_neg hc], ?_⟩
      exact ⟨rfl, rfl, rfl, rfl, rfl, rfl, rfl, rfl, rfl⟩
  | sidesOption v => exact ⟨_, rfl, rfl, rfl, rfl, rfl, rfl, rfl, rfl, rfl, rfl⟩
  | sides1Sided v => exact ⟨_, rfl, rfl, rfl, rfl, rfl, rfl, rfl, rfl, rfl, rfl⟩
  | sides2SidedLong v => exact ⟨_, rfl, rfl, rfl, rfl, rfl, rfl, rfl, rfl, rfl, rfl⟩
  | sides2SidedShort v => exact ⟨_, rfl, rfl, rfl, rfl, rfl, rfl, rfl, rfl, rfl, rfl⟩
  | finishings value opts => exact ⟨_, rfl, rfl, rfl, rfl, rfl, rfl, rfl, rfl, rfl, rfl⟩
  | finishingTemplate v => exact ⟨_, rfl, rfl, rfl, rfl, rfl, rfl, rfl, rfl, rfl, rfl⟩
  | maxCopies n => exact ⟨_, rfl, rfl, rfl, rfl, rfl, rfl, rfl, rfl, rfl, rfl⟩
  | chargeInfoUri v => exact ⟨_, rfl, rfl, rfl, rfl, rfl, rfl, rfl, rfl, rfl, rfl⟩
  | jobAccountId v => exact ⟨_, rfl, rfl, rfl, rfl, rfl, rfl, rfl, rfl, rfl, rfl⟩
  | jobAccountingUserId v => exact ⟨_, rfl, rfl, rfl, rfl, rfl, rfl, rfl, rfl, rfl, rfl⟩
  | jobPassword v => exact ⟨_, rfl, rfl, rfl, rfl, rfl, rfl, rfl, rfl, rfl, rfl⟩
  | mandatory v => exact ⟨_, rfl, rfl, rfl, rfl, rfl, rfl, rfl, rfl, rfl, rfl⟩
  | supportFile v => exact ⟨_, rfl, rfl, rfl, rfl, rfl, rfl, rfl, rfl, rfl, rfl⟩
  | unknown k v => exact ⟨st, rfl, preserves_refl st⟩

/-- A list of benign lines always succeeds and preserves the tracked
fields. -/
theorem benign_lines (ls : List CacheLine) :
    ∀ st, (∀ l ∈ ls, BenignLine l) →
      ∃ st2, readCacheLines st ls = .ok st2 ∧ Preserves st st2 := by
  induction ls with
  | nil => intro st _; exact ⟨st, rfl, preserves_refl st⟩
  | cons l ls ih =>
      intro st hb
      obtain ⟨st1, hstep, hp1⟩ := benign_step l st (hb l (by simp))
      obtain ⟨st2, hrest, hp2⟩ := ih st1 (fun x hx => hb x (by simp [hx]))
      refine ⟨st2, ?_, preserves_trans hp1 hp2⟩
      simp only [readCacheLines, hstep, hrest]

/-- Benignity of a concatenation, from benignity of the parts. -/
theorem benign_append {A B : List CacheLine}
    (ha : ∀ l ∈ A, BenignLine l) (hbn : ∀ l ∈ B, BenignLine l) :
    ∀ l ∈ A ++ B, BenignLine l := by
  intro l hl
  rcases List.mem_append.mp hl with h | h
  · exact ha l h
  · exact hbn l h

/-- Every line of a mapped block with a benign constructor is benign. -/
theorem benign_map {α : Type} (f : α → CacheLine)
    (hf : ∀ a, BenignLine (f a)) (xs : List α) :
    ∀ l ∈ xs.map f, BenignLine l := by
  intro l hl
  obtain ⟨a, _, ha⟩ := List.mem_map.mp hl
  rw [← ha]
  exact hf a

/-- Every line of an `optLine` block built from a benign constructor is
benign. -/
theorem optLine_benign (f : String → CacheLine)
    (hf : ∀ v, BenignLine (f v)) (o : Option String) :
    ∀ l ∈ optLine f o, BenignLine l := by
  cases o with
  | none => intro l hl; simp [optLine] at hl
  | some v =>
      intro l hl
      simp only [optLine, List.mem_singleton] at hl
      rw [hl]
      exact hf v

/-- Every line of a singleton block is benign when its line is. -/
theorem benign_singleton {x : CacheLine} (hx : BenignLine x) :
    ∀ l ∈ [x], BenignLine l := by
  intro l hl
  simp only [List.mem_singleton] at hl
  rw [hl]
  exact hx

/-- Every preset line the writer emits is benign: its grid indices are in
range and its option list non-empty. -/
theorem presetLines_benign (pc : PpdCache) :
    ∀ l ∈ presetLines pc, BenignLine l := by
  intro l hl
  simp only [presetLines, List.mem_flatMap, List.mem_filterMap,
    List.mem_finRange, true_and] at hl
  obtain ⟨i, j, hj⟩ := hl
  by_cases hopts : pc.presets i j = []
  · rw [if_pos hopts] at hj
    exact absurd hj (by simp)
  · rw [if_neg hopts] at hj
    have hjl : CacheLine.preset (i.val : Int) (j.val : Int)
        (pc.presets i j) = l := by
      injection hj
    rw [← hjl]
    refine ⟨by positivity, ?_, by positivity, ?_, hopts⟩
    · exact_mod_cast i.isLt
    · exact_mod_cast j.isLt

/-- Every optimize-preset line the writer emits is benign. -/
theorem optimizePresetLines_benign (pc : PpdCache) :
    ∀ l ∈ optimizePresetLines pc, BenignLine l := by
  intro l hl
  simp only [optimizePresetLines, List.mem_filterMap,
    List.mem_finRange, true_and] at hl
  obtain ⟨i, hj⟩ := hl
  by_cases hopts : pc.optimizePresets i = []
  · rw [if_pos hopts] at hj
    exact absurd hj (by simp)
  · rw [if_neg hopts] at hj
    have hjl : CacheLine.optimizePreset (i.val : Int)
        (pc.optimizePresets i) = l := by
      injection hj
    rw [← hjl]
    refine ⟨by positivity, ?_, hopts⟩
    exact_mod_cast i.isLt

/-- Every line the writer emits between the types block and the IPP blob is
benign. -/
theorem middle_benign (pc : PpdCache) : ∀ l ∈ middleLines pc, BenignLine l := by
  unfold middleLines
  refine benign_append (benign_append (benign_append (benign_append
    (benign_append (benign_append (benign_append (benign_append
    (benign_append (benign_append (benign_append (benign_append
    (benign_append (benign_append (benign_append (benign_append
    (benign_append (presetLines_benign pc) (optimizePresetLines_benign pc))
    (optLine_benign CacheLine.sidesOption (fun v => trivial) pc.sidesOption))
    (optLine_benign CacheLine.sides1Sided (fun v => trivial) pc.sides1Sided))
    (optLine_benign CacheLine.sides2SidedLong (fun v => trivial)
      pc.sides2SidedLong))
    (optLine_benign CacheLine.sides2SidedShort (fun v => trivial)
      pc.sides2SidedShort))
    (optLine_benign CacheLine.product (fun v => trivial) pc.product))
    (benign_map CacheLine.filter (fun v => trivial) pc.filters))
    (benign_map CacheLine.prefilter (fun v => trivial) pc.prefilters))
    (benign_singleton trivial))
    (benign_map (fun f => CacheLine.finishings f.value f.options)
      (fun f => trivial) pc.finishings))
    (benign_map CacheLine.finishingTemplate (fun v => trivial) pc.templates))
    (benign_singleton trivial))
    (optLine_benign CacheLine.chargeInfoUri (fun v => trivial)
      pc.chargeInfoUri))
    ?_)
    (optLine_benign CacheLine.jobPassword (fun v => trivial) pc.password))
    (benign_map CacheLine.mandatory (fun v => trivial) pc.mandatory))
    (benign_map CacheLine.supportFile (fun v => trivial) pc.supportFiles)
  intro l hl
  simp only [List.mem_cons, List.not_mem_nil, or_false] at hl
  rcases hl with hl | hl
  · rw [hl]; trivial
  · rw [hl]; trivial

/-- Reading the `Bin` detail lines of a table appends the entries in order,
as long as the declared count leaves room for all of them. -/
theorem read_bin_entries :
    ∀ (todo : List PwgMap) (st : ReaderState),
      (∀ m ∈ todo, m.pwg ≠ "" ∧ m.ppd ≠ "") →
      (st.pc.bins.length : Int) + (todo.length : Int) ≤ st.numBins →
      readCacheLines st (todo.map fun m => CacheLine.bin m.pwg m.ppd) =
        .ok { st with pc := { st.pc with bins := st.pc.bins ++ todo } } := by
  intro todo
  induction todo with
  | nil =>
      intro st _ _
      simp only [List.map_nil, readCacheLines, List.append_nil]
  | cons m t ih =>
      intro st hnm hlen
      obtain ⟨h1, h2⟩ := hnm m (by simp)
      have hc1 : ¬ (m.pwg = "" ∨ m.ppd = "") := by
        push_neg
        exact ⟨h1, h2⟩
      have hc2 : ¬ ((st.pc.bins.length : Int) ≥ st.numBins) := by
        simp only [List.length_cons] at hlen
        push_cast at hlen
        omega
      have hstep : readCacheLine st (CacheLine.bin m.pwg m.ppd) =
          .ok { st with pc := { st.pc with bins := st.pc.bins ++ [m] } } := by
        simp only [readCacheLine]
        rw [if_neg hc1, if_neg hc2]
      simp only [List.map_cons, readCacheLines, hstep]
      rw [ih _ (fun x hx => hnm x (by simp [hx]))
        (by simp only [List.length_append, List.length_cons,
              List.length_nil] at hlen ⊢
            push_cast at hlen ⊢
            omega)]
      rw [show (st.pc.bins ++ [m]) ++ t = st.pc.bins ++ m :: t by simp]

/-- Reading the `Size` detail lines appends the entries in order. -/
theorem read_size_entries :
    ∀ (todo : List PwgSize) (st : ReaderState),
      (∀ s ∈ todo, s.pwg ≠ "" ∧ s.ppd ≠ "") →
      (st.pc.sizes.length : Int) + (todo.length : Int) ≤ st.numSizes →
      readCacheLines st (todo.map fun s =>
          CacheLine.size s.pwg s.ppd s.width s.length s.left s.bottom
            s.right s.top) =
        .ok { st with pc := { st.pc with sizes := st.pc.sizes ++ todo } } := by
  intro todo
  induction todo with
  | nil =>
      intro st _ _
      simp only [List.map_nil, readCacheLines, List.append_nil]
  | cons m t ih =>
      intro st hnm hlen
      obtain ⟨h1, h2⟩ := hnm m (by simp)
      have hc1 : ¬ (m.pwg = "" ∨ m.ppd = "") := by
        push_neg
        exact ⟨h1, h2⟩
      have hc2 : ¬ ((st.pc.sizes.length : Int) ≥ st.numSizes) := by
        simp only [List.length_cons] at hlen
        push_cast at hlen
        omega
      have hstep : readCacheLine st (CacheLine.size m.pwg m.ppd m.width
          m.length m.left m.bottom m.right m.top) =
          .ok { st with pc := { st.pc with sizes := st.pc.sizes ++ [m] } } := by
        simp only [readCacheLine]
        rw [if_neg hc2, if_neg hc1]
      simp only [List.map_cons, readCacheLines, hstep]
      rw [ih _ (fun x hx => hnm x (by simp [hx]))
        (by simp only [List.length_append, List.length_cons,
              List.length_nil] at hlen ⊢
            push_cast at hlen ⊢
            omega)]
      rw [show (st.pc.sizes ++ [m]) ++ t = st.pc.sizes ++ m :: t by simp]

/-- Reading the `Source` detail lines appends the entries in order. -/
theorem read_source_entries :
    ∀ (todo : List PwgMap) (st : ReaderState),
      (∀ m ∈ todo, m.pwg ≠ "" ∧ m.ppd ≠ "") →
      (st.pc.sources.length : Int) + (todo.length : Int) ≤ st.numSources →
      readCacheLines st (todo.map fun m => CacheLine.source m.pwg m.ppd) =
        .ok { st with pc :=
          { st.pc with sources := st.pc.sources ++ todo } } := by
  intro todo
  induction todo with
  | nil =>
      intro st _ _
      simp only [List.map_nil, readCacheLines, List.append_nil]
  | cons m t ih =>
      intro st hnm hlen
      obtain ⟨h1, h2⟩ := hnm m (by simp)
      have hc1 : ¬ (m.pwg = "" ∨ m.ppd = "") := by
        push_neg
        exact ⟨h1, h2⟩
      have hc2 : ¬ ((st.pc.sources.length : Int) ≥ st.numSources) := by
        simp only [List.length_cons] at hlen
        push_cast at hlen
        omega
      have hstep : readCacheLine st (CacheLine.source m.pwg m.ppd) =
          .ok { st with pc :=
            { st.pc with sources := st.pc.sources ++ [m] } } := by
        simp only [readCacheLine]
        rw [if_neg hc1, if_neg hc2]
      simp only [List.map_cons, readCacheLines, hstep]
      rw [ih _ (fun x hx => hnm x (by simp [hx]))
        (by simp only [List.length_append, List.length_cons,
              List.length_nil] at hlen ⊢
            push_cast at hlen ⊢
            omega)]
      rw [show (st.pc.sources ++ [m]) ++ t = st.pc.sources ++ m :: t by simp]

/-- Reading the `Type` detail lines appends the entries in order. -/
theorem read_type_entries :
    ∀ (todo : List PwgMap) (st : ReaderState),
      (∀ m ∈ todo, m.pwg ≠ "" ∧ m.ppd ≠ "") →
      (st.pc.types.length : Int) + (todo.length : Int) ≤ st.numTypes →
      readCacheLines st (todo.map fun m => CacheLine.mtype m.pwg m.ppd) =
        .ok { st with pc := { st.pc with types := st.pc.types ++ todo } } := by
  intro todo
  induction todo with
  | nil =>
      intro st _ _
      simp only [List.map_nil, readCacheLines, List.append_nil]
  | cons m t ih =>
      intro st hnm hlen
      obtain ⟨h1, h2⟩ := hnm m (by simp)
      have hc1 : ¬ (m.pwg = "" ∨ m.ppd = "") := by
        push_neg
        exact ⟨h1, h2⟩
      have hc2 : ¬ ((st.pc.types.length : Int) ≥ st.numTypes) := by
        simp only [List.length_cons] at hlen
        push_cast at hlen
        omega
      have hstep : readCacheLine st (CacheLine.mtype m.pwg m.ppd) =
          .ok { st with pc := { st.pc with types := st.pc.types ++ [m] } } := by
        simp only [readCacheLine]
        rw [if_neg hc1, if_neg hc2]
      simp only [List.map_cons, readCacheLines, hstep]
      rw [ih _ (fun x hx => hnm x (by simp [hx]))
        (by simp only [List.length_append, List.length_cons,
              List.length_nil] at hlen ⊢
            push_cast at hlen ⊢
            omega)]
      rw [show (st.pc.types ++ [m]) ++ t = st.pc.types ++ m :: t by simp]

/-- Reading the writer's bins block from a state with an empty bins table
and an undeclared count yields exactly the written table. -/
theorem read_bins_block (st : ReaderState) (hbins : st.pc.bins = [])
    (hnum : st.numBins = 0) (pc : PpdCache)
    (hlen : pc.bins.length ≤ 65536)
    (hnm : ∀ m ∈ pc.bins, m.pwg ≠ "" ∧ m.ppd ≠ "") :
    readCacheLines st (binsLines pc) =
      .ok { st with numBins := (pc.bins.length : Int),
                    pc := { st.pc with bins := pc.bins } } := by
  unfold binsLines
  by_cases hpos : pc.bins.length > 0
  · rw [if_pos hpos]
    have hc1 : ¬ st.numBins > 0 := by omega
    have hc2 : ¬ ((pc.bins.length : Int) ≤ 0 ∨
        (pc.bins.length : Int) > 65536) := by
      push_neg
      constructor <;> omega
    have hstep : readCacheLine st (CacheLine.numBins (pc.bins.length : Int)) =
        .ok { st with numBins := (pc.bins.length : Int) } := by
      simp only [readCacheLine]
      rw [if_neg hc1, if_neg hc2]
    simp only [readCacheLines, hstep]
    rw [read_bin_entries pc.bins _ hnm (by rw [hbins]; simp)]
    rw [hbins, List.nil_append]
  · rw [if_neg hpos]
    have hbe : pc.bins = [] := List.length_eq_zero.mp (by omega)
    simp only [readCacheLines, hbe, List.length_nil, Nat.cast_zero]
    rw [← hnum, ← hbins]

/-- Reading the writer's sizes block (the count line is unconditional). -/
theorem read_sizes_block (st : ReaderState) (hsizes : st.pc.sizes = [])
    (hnum : st.numSizes = 0) (pc : PpdCache)
    (hlen : pc.sizes.length ≤ 65536)
    (hnm : ∀ s ∈ pc.sizes, s.pwg ≠ "" ∧ s.ppd ≠ "") :
    readCacheLines st (sizesLines pc) =
      .ok { st with numSizes := (pc.sizes.length : Int),
                    pc := { st.pc with sizes := pc.sizes } } := by
  unfold sizesLines
  have hc1 : ¬ st.numSizes > 0 := by omega
  have hc2 : ¬ ((pc.sizes.length : Int) < 0 ∨
      (pc.sizes.length : Int) > 65536) := by
    push_neg
    constructor <;> omega
  have hstep : readCacheLine st (CacheLine.numSizes (pc.sizes.length : Int)) =
      .ok { st with numSizes := (pc.sizes.length : Int) } := by
    simp only [readCacheLine]
    rw [if_neg hc1, if_neg hc2]
  simp only [readCacheLines, hstep]
  rw [read_size_entries pc.sizes _ hnm (by rw [hsizes]; simp)]
  rw [hsizes, List.nil_append]

/-- Reading the writer's sources block. -/
theorem read_sources_block (st : ReaderState) (hsrc : st.pc.sources = [])
    (hnum : st.numSources = 0) (pc : PpdCache)
    (hlen : pc.sources.length ≤ 65536)
    (hnm : ∀ m ∈ pc.sources, m.pwg ≠ "" ∧ m.ppd ≠ "") :
    readCacheLines st (sourcesLines pc) =
      .ok { st with numSources := (pc.sources.length : Int),
                    pc := { st.pc with sources := pc.sources } } := by
  unfold sourcesLines
  by_cases hpos : pc.sources.length > 0
  · rw [if_pos hpos]
    have hc1 : ¬ st.numSources > 0 := by omega
    have hc2 : ¬ ((pc.sources.length : Int) ≤ 0 ∨
        (pc.sources.length : Int) > 65536) := by
      push_neg
      constructor <;> omega
    have hstep : readCacheLine st
        (CacheLine.numSources (pc.sources.length : Int)) =
        .ok { st with numSources := (pc.sources.length : Int) } := by
      simp only [readCacheLine]
      rw [if_neg hc1, if_neg hc2]
    simp only [readCacheLines, hstep]
    rw [read_source_entries pc.sources _ hnm (by rw [hsrc]; simp)]
    rw [hsrc, List.nil_append]
  · rw [if_neg hpos]
    have hbe : pc.sources = [] := List.length_eq_zero.mp (by omega)
    simp only [readCacheLines, hbe, List.length_nil, Nat.cast_zero]
    rw [← hnum, ← hsrc]

/-- Reading the writer's types block. -/
theorem read_types_block (st : ReaderState) (hty : st.pc.types = [])
    (hnum : st.numTypes = 0) (pc : PpdCache)
    (hlen : pc.types.length ≤ 65536)
    (hnm : ∀ m ∈ pc.types, m.pwg ≠ "" ∧ m.ppd ≠ "") :
    readCacheLines st (typesLines pc) =
      .ok { st with numTypes := (pc.types.length : Int),
                    pc := { st.pc with types := pc.types } } := by
  unfold typesLines
  by_cases hpos : pc.types.length > 0
  · rw [if_pos hpos]
    have hc1 : ¬ st.numTypes > 0 := by omega
    have hc2 : ¬ ((pc.types.length : Int) ≤ 0 ∨
        (pc.types.length : Int) > 65536) := by
      push_neg
      constructor <;> omega
    have hstep : readCacheLine st
        (CacheLine.numTypes (pc.types.length : Int)) =
        .ok { st with numTypes := (pc.types.length : Int) } := by
      simp only [readCacheLine]
      rw [if_neg hc1, if_neg hc2]
    simp only [readCacheLines, hstep]
    rw [read_type_entries pc.types _ hnm (by rw [hty]; simp)]
    rw [hty, List.nil_append]
  · rw [if_neg hpos]
    have hbe : pc.types = [] := List.length_eq_zero.mp (by omega)
    simp only [readCacheLines, hbe, List.length_nil, Nat.cast_zero]
    rw [← hnum, ← hty]

/-- Reading the writer's optional custom-size line from a state that has not
seen one yet always succeeds and preserves the tracked fields. -/
theorem read_custom_block (st : ReaderState)
    (hcw : st.pc.customMaxWidth = 0) (pc : PpdCache) :
    ∃ st2, readCacheLines st (customLines pc) = .ok st2 ∧
      Preserves st st2 := by
  unfold customLines
  by_cases hpos : pc.customMaxWidth > 0
  · rw [if_pos hpos]
    have hc : ¬ st.pc.customMaxWidth > 0 := by omega
    refine ⟨{ st with pc := { st.pc with
        customMaxWidth := pc.customMaxWidth,
        customMaxLength := pc.customMaxLength,
        customMinWidth := pc.customMinWidth,
        customMinLength := pc.customMinLength,
        customLeft := pc.customLeft,
        customBottom := pc.customBottom,
        customRight := pc.customRight,
        customTop := pc.customTop,
        customMaxKeyword := some (pwgFormatSizeNameCustom "max"
          pc.customMaxWidth pc.customMaxLength),
        customMinKeyword := some (pwgFormatSizeNameCustom "min"
          pc.customMinWidth pc.customMinLength) } },
      ?_, rfl, rfl, rfl, rfl, rfl, rfl, rfl, rfl, rfl⟩
    simp only [readCacheLines, readCacheLine]
    rw [if_neg hc]
  · rw [if_neg hpos]
    exact ⟨st, rfl, preserves_refl st⟩

/-- Reading the writer's IPP block from a state with no attributes yet:
succeeds, stores exactly the blob, and preserves the tables and counts. -/
theorem read_ipp_block (st : ReaderState) (hat : st.attrs = none)
    (attrs : Option (List UInt8)) (hblob : ∀ b, attrs = some b → b ≠ []) :
    ∃ st2, readCacheLines st (ippLines attrs) = .ok st2 ∧
      st2.pc.bins = st.pc.bins ∧ st2.pc.sizes = st.pc.sizes ∧
      st2.pc.sources = st.pc.sources ∧ st2.pc.types = st.pc.types ∧
      st2.numBins = st.numBins ∧ st2.numSizes = st.numSizes ∧
      st2.numSources = st.numSources ∧ st2.numTypes = st.numTypes ∧
      st2.attrs = attrs := by
  cases attrs with
  | none => exact ⟨st, rfl, rfl, rfl, rfl, rfl, rfl, rfl, rfl, rfl, hat⟩
  | some b =>
      have hbne : b ≠ [] := hblob b rfl
      have hlen : 0 < b.length := List.length_pos.mpr hbne
      have hc1 : ¬ st.attrs.isSome = true := by
        rw [hat]
        simp
      have hc2 : ¬ ((b.length : Int) ≤ 0) := by omega
      have hc3 : ¬ ((b.length : Int) ≠ (b.length : Int)) := by simp
      refine ⟨{ st with attrs := some b }, ?_, rfl, rfl, rfl, rfl, rfl, rfl,
        rfl, rfl, rfl⟩
      simp only [ippLines, readCacheLines, readCacheLine]
      rw [if_neg hc1, if_neg hc2, if_neg hc3]

/-- C10: for every media-source keyword case-insensitively different from
`"main"`, `ppdPwgInputSlotForSource` returns `"Cassette"`; for `"main"`
itself it returns `"Multipurpose"`; every result is one of those two strings,
and in particular each keyword the per-keyword mapping table intends to
handle (`"alternate"` → `"Multipurpose"`, `"bottom"` → `"Lower"`, `"top"` →
`"Upper"`, …) instead produces `"Cassette"`, so the table branches and the
`ppdPwgPpdizeName` fall-through are never reached for their intended
inputs. -/
theorem c10_inputSlotForSource_collapses :
    (∀ s : String, strCaseEq s "main" = false →
       ppdPwgInputSlotForSource s = "Cassette") ∧
    ppdPwgInputSlotForSource "main" = "Multipurpose" ∧
    (∀ s : String, ppdPwgInputSlotForSource s = "Cassette" ∨
       ppdPwgInputSlotForSource s = "Multipurpose") ∧
    (ppdPwgInputSlotForSource "alternate" = "Cassette" ∧
     ppdPwgInputSlotForSource "large-capacity" = "Cassette" ∧
     ppdPwgInputSlotForSource "bottom" = "Cassette" ∧
     ppdPwgInputSlotForSource "middle" = "Cassette" ∧
     ppdPwgInputSlotForSource "top" = "Cassette" ∧
     ppdPwgInputSlotForSource "rear" = "Cassette" ∧
     ppdPwgInputSlotForSource "side" = "Cassette" ∧
     ppdPwgInputSlotForSource "envelope" = "Cassette" ∧
     ppdPwgInputSlotForSource "main-roll" = "Cassette" ∧
     ppdPwgInputSlotForSource "alternate-roll" = "Cassette") := by
  refine ⟨?_, by decide, ?_, by decide⟩
  · intro s h
    simp [ppdPwgInputSlotForSource, h]
  · intro s
    by_cases h : strCaseEq s "main" = true
    · right
      have ha : strCaseEq s "alternate" = false :=
        strCaseEq_of_main h (by decide)
      simp [ppdPwgInputSlotForSource, h, ha]
    · left
      have hf : strCaseEq s "main" = false := by
        cases hb : strCaseEq s "main"
        · rfl
        · exact absurd hb h
      simp [ppdPwgInputSlotForSource, hf]

/-- C10 witness: the intended `"bottom"` → `"Lower"` table entry is shadowed
and yields `"Cassette"`. -/
theorem c10_witness :
    strCaseEq "bottom" "main" = false ∧
    ppdPwgInputSlotForSource "bottom" = "Cassette" :=
  ⟨by decide, c10_inputSlotForSource_collapses.1 "bottom" (by decide)⟩

/-- C9 counterexample: with both `"monochrome"` and `"auto-monochrome"` in
the destination's supported values, the literal `"monochrome"` keyword is
supported and yet the translator substitutes `"auto-monochrome"`, so the
substitution is not restricted to destinations lacking the literal
keyword. -/
theorem c9_counterexample :
    (["monochrome", "auto-monochrome"] : List String).contains "monochrome"
      = true ∧
    resolveColorModeKeyword ["monochrome", "auto-monochrome"] "monochrome"
      ≠ "monochrome" ∧
    resolveColorModeKeyword ["monochrome", "auto-monochrome"] "monochrome"
      = "auto-monochrome" := by
  decide

/-- C9 amended: `"auto-monochrome"` is preferred whenever the destination
supports it, regardless of whether the literal `"monochrome"` keyword is also
supported; `"process-monochrome"` is substituted only when `"auto-monochrome"`
is unsupported and the literal `"monochrome"` is unsupported; otherwise — and
for every other keyword — the resolved keyword is emitted unchanged. -/
theorem c9_amended_monochrome_fallbacks : ∀ sup : List String,
    (∀ kw, kw ≠ "monochrome" → resolveColorModeKeyword sup kw = kw) ∧
    (sup.contains "auto-monochrome" = true →
       resolveColorModeKeyword sup "monochrome" = "auto-monochrome") ∧
    (sup.contains "auto-monochrome" = false →
     sup.contains "monochrome" = true →
       resolveColorModeKeyword sup "monochrome" = "monochrome") ∧
    (sup.contains "auto-monochrome" = false →
     sup.contains "monochrome" = false →
     sup.contains "process-monochrome" = true →
       resolveColorModeKeyword sup "monochrome" = "process-monochrome") ∧
    (sup.contains "auto-monochrome" = false →
     sup.contains "process-monochrome" = false →
       resolveColorModeKeyword sup "monochrome" = "monochrome") := by
  intro sup
  refine ⟨?_, ?_, ?_, ?_, ?_⟩
  · intro kw h
    simp [resolveColorModeKeyword, h]
  · intro h
    have hm : "auto-monochrome" ∈ sup := by simpa using h
    simp [resolveColorModeKeyword, hm]
  · intro h1 h2
    have hm1 : "auto-monochrome" ∉ sup := by simpa using h1
    have hm2 : "monochrome" ∈ sup := by simpa using h2
    simp [resolveColorModeKeyword, hm1, hm2]
  · intro h1 h2 h3
    have hm1 : "auto-monochrome" ∉ sup := by simpa using h1
    have hm2 : "monochrome" ∉ sup := by simpa using h2
    have hm3 : "process-monochrome" ∈ sup := by simpa using h3
    simp [resolveColorModeKeyword, hm1, hm2, hm3]
  · intro h1 h2
    have hm1 : "auto-monochrome" ∉ sup := by simpa using h1
    have hm2 : "process-monochrome" ∉ sup := by simpa using h2
    simp [resolveColorModeKeyword, hm1, hm2]

/-- C9 amended witness: a destination supporting only the literal
`"monochrome"` keyword gets the literal keyword. -/
theorem c9_amended_witness :
    (["monochrome"] : List String).contains "auto-monochrome" = false ∧
    (["monochrome"] : List String).contains "monochrome" = true ∧
    resolveColorModeKeyword ["monochrome"] "monochrome" = "monochrome" :=
  ⟨by decide, by decide,
   (c9_amended_monochrome_fallbacks ["monochrome"]).2.2.1 (by decide)
     (by decide)⟩

/-- C5: a cache file whose first line lacks the 16-character magic prefix is
rejected with the `"Bad PPD cache file."` message; one with the prefix but a
version number different from `PPD_CACHE_VERSION` is rejected with the
distinct `"Out of date PPD cache file."` message. -/
theorem c5_header_version_errors : ∀ f : CacheFile,
    (f.header.data.take 16 ≠ "#CUPS-PPD-CACHE-".data →
       errOf (ppdCacheCreateWithFile f) = some "Bad PPD cache file.") ∧
    (f.header.data.take 16 = "#CUPS-PPD-CACHE-".data →
     atoiChars (f.header.data.drop 16) ≠ PPD_CACHE_VERSION →
       errOf (ppdCacheCreateWithFile f) = some "Out of date PPD cache file.") ∧
    ("Bad PPD cache file." : String) ≠ "Out of date PPD cache file." := by
  intro f
  refine ⟨?_, ?_, by decide⟩
  · intro h
    simp [ppdCacheCreateWithFile, checkCacheHeader, h, errOf]
  · intro h1 h2
    simp [ppdCacheCreateWithFile, checkCacheHeader, h1, h2, errOf]

/-- C5 witness: a malformed header and an out-of-date version are both
rejected, with their distinct messages. -/
theorem c5_witness :
    errOf (ppdCacheCreateWithFile ⟨"PPD-CACHE", []⟩)
      = some "Bad PPD cache file." ∧
    errOf (ppdCacheCreateWithFile ⟨"#CUPS-PPD-CACHE-999", []⟩)
      = some "Out of date PPD cache file." :=
  ⟨(c5_header_version_errors ⟨"PPD-CACHE", []⟩).1 (by decide),
   (c5_header_version_errors ⟨"#CUPS-PPD-CACHE-999", []⟩).2.1 (by decide)
     (by decide)⟩

/-- C3: the literal custom-size syntax parses with its unit suffixes:
`"Custom.4x6in"` gives width 10160 and length 15240 (2540 units per inch),
`"Custom.100x150mm"` gives width 10000 and length 15000 (100 units per
millimeter). -/
theorem c3_custom_size_parsing :
    ppdCacheGetSize2Custom "Custom.4x6in" = some (10160, 15240) ∧
    ppdCacheGetSize2Custom "Custom.100x150mm" = some (10000, 15000) := by
  decide

/-- C2 counterexample: two sizes whose widths and lengths each differ by 49
units do NOT collapse into one entry when one of them is borderless and the
other is not — the merge also requires equal borderless state, so "merged
exactly when both width and length differ by less than 50 units" fails. -/
theorem c2_counterexample :
    (c2SizeB.width - c2SizeA.width).natAbs = 49 ∧
    (c2SizeB.length - c2SizeA.length).natAbs = 49 ∧
    (addSizeEntry [c2SizeA] c2SizeB false).length = 2 := by
  decide

/-- C2 amended: a new size merges with (is collapsed into) an existing entry
exactly when the two have the same borderless state and both width and length
differ by less than 50 units (1/2540 inch); in particular two same-margin
sizes 49 units apart in both dimensions give one entry, and 51 units apart in
either dimension give two. -/
theorem c2_amended_epsilon_merge :
    ∀ (old nw : PwgSize) (newKnown : Bool),
      (addSizeEntry [old] nw newKnown).length = 1 ↔
        (isBorderless old = isBorderless nw ∧
         (old.width - nw.width).natAbs < 50 ∧
         (old.length - nw.length).natAbs < 50) := by
  intro old nw newKnown
  by_cases h : similarSizes old nw = true
  · have hr : (isBorderless old = isBorderless nw ∧
        (old.width - nw.width).natAbs < 50 ∧
        (old.length - nw.length).natAbs < 50) := by
      simpa [similarSizes, pwgEquivalent, decide_eq_true_eq, and_assoc]
        using h
    simp only [addSizeEntry, h, if_true]
    constructor
    · intro _
      exact hr
    · intro _
      split <;> rfl
  · have hr : ¬ (isBorderless old = isBorderless nw ∧
        (old.width - nw.width).natAbs < 50 ∧
        (old.length - nw.length).natAbs < 50) := by
      intro hc
      exact h (by simp [similarSizes, pwgEquivalent, decide_eq_true_eq,
                        and_assoc, hc.1, hc.2.1, hc.2.2])
    simp only [addSizeEntry, h, if_false]
    constructor
    · intro hl
      simp [addSizeEntry] at hl
    · intro hc
      exact absurd hc hr

/-- C1: write/read round trip.  For every well-formed cache (see `WfCache`:
round-trippable table tokens and counts within the reader's sanity bound,
both guaranteed for builder-produced caches) and every attribute blob (IPP
encodings are never empty), reading back the written file succeeds and
reproduces every table — entry counts, canonical/device name pairs, and the
sizes' physical width/length/margin values — together with the exact blob
bytes. -/
theorem c1_roundtrip (pc : PpdCache) (attrs : Option (List UInt8))
    (hwf : WfCache pc) (hblob : ∀ b, attrs = some b → b ≠ []) :
    ∃ pc2, ppdCacheCreateWithFile (ppdCacheWriteFile pc attrs) =
        .ok (pc2, attrs) ∧
      pc2.bins = pc.bins ∧ pc2.sizes = pc.sizes ∧
      pc2.sources = pc.sources ∧ pc2.types = pc.types := by
  obtain ⟨hb65, hs65, hso65, ht65, hbn, hsn, hson, htn⟩ := hwf
  have hbn2 : ∀ m ∈ pc.bins, m.pwg ≠ "" ∧ m.ppd ≠ "" :=
    fun m hm => ⟨(hbn m hm).1.1, (hbn m hm).2.1⟩
  have hsn2 : ∀ s ∈ pc.sizes, s.pwg ≠ "" ∧ s.ppd ≠ "" :=
    fun s hs => ⟨(hsn s hs).1.1, (hsn s hs).2.1⟩
  have hson2 : ∀ m ∈ pc.sources, m.pwg ≠ "" ∧ m.ppd ≠ "" :=
    fun m hm => ⟨(hson m hm).1.1, (hson m hm).2.1⟩
  have htn2 : ∀ m ∈ pc.types, m.pwg ≠ "" ∧ m.ppd ≠ "" :=
    fun m hm => ⟨(htn m hm).1.1, (htn m hm).2.1⟩
  have e1 : readCacheLines initReaderState (binsLines pc) =
      .ok (stAfterBins pc) :=
    read_bins_block initReaderState rfl rfl pc hb65 hbn2
  have e2 : readCacheLines (stAfterBins pc) (sizesLines pc) =
      .ok (stAfterSizes pc) :=
    read_sizes_block (stAfterBins pc) rfl rfl pc hs65 hsn2
  obtain ⟨st3, e3, p3⟩ := read_custom_block (stAfterSizes pc) rfl pc
  obtain ⟨st4, e4, p4⟩ :=
    benign_lines (optLine CacheLine.sourceOption pc.sourceOption) st3
      (optLine_benign CacheLine.sourceOption (fun v => trivial)
        pc.sourceOption)
  obtain ⟨f1, f2, f3, f4, f5, f6, f7, f8, f9⟩ := preserves_trans p3 p4
  have e5 : readCacheLines st4 (sourcesLines pc) =
      .ok (stAfterSources st4 pc) :=
    read_sources_block st4 (f3.trans rfl) (f7.trans rfl) pc hso65 hson2
  have e6 : readCacheLines (stAfterSources st4 pc) (typesLines pc) =
      .ok (stAfterTypes (stAfterSources st4 pc) pc) :=
    read_types_block (stAfterSources st4 pc) (f4.trans rfl) (f8.trans rfl)
      pc ht65 htn2
  obtain ⟨st7, e7, p7⟩ :=
    benign_lines (middleLines pc) (stAfterTypes (stAfterSources st4 pc) pc)
      (middle_benign pc)
  obtain ⟨q1, q2, q3, q4, q5, q6, q7, q8, q9⟩ := p7
  have hat7 : st7.attrs = none := q9.trans (f9.trans rfl)
  obtain ⟨st8, e8, g1, g2, g3, g4, g5, g6, g7, g8, g9⟩ :=
    read_ipp_block st7 hat7 attrs hblob
  -- the tracked fields of the final state
  have hbins8 : st8.pc.bins = pc.bins :=
    g1.trans (q1.trans (f1.trans rfl))
  have hsizes8 : st8.pc.sizes = pc.sizes :=
    g2.trans (q2.trans (f2.trans rfl))
  have hsrc8 : st8.pc.sources = pc.sources := g3.trans q3
  have hty8 : st8.pc.types = pc.types := g4.trans q4
  have hns8 : st8.numSizes = (pc.sizes.length : Int) :=
    g6.trans (q6.trans (f6.trans rfl))
  have hnso8 : st8.numSources = (pc.sources.length : Int) := g7.trans q7
  have hnty8 : st8.numTypes = (pc.types.length : Int) := g8.trans q8
  -- the complete read loop
  have E : readCacheLines initReaderState (writeCacheLines pc attrs) =
      .ok st8 := by
    rw [writeCacheLines]
    simp only [readCacheLines_append]
    rw [e1]
    simp only [Except.bind]
    rw [e2]
    simp only [Except.bind]
    rw [e3]
    simp only [Except.bind]
    rw [e4]
    simp only [Except.bind]
    rw [e5]
    simp only [Except.bind]
    rw [e6]
    simp only [Except.bind]
    rw [e7]
    simp only [Except.bind]
    rw [e8]
  -- the post-loop validation passes
  have hfin : finishRead st8 = .ok st8 := by
    unfold finishRead
    rw [if_neg (by rw [hsizes8, hns8]; simp),
        if_neg (by rw [hsrc8, hnso8]; simp),
        if_neg (by rw [hty8, hnty8]; simp)]
  have hhdr : checkCacheHeader ("#CUPS-PPD-CACHE-" ++
      toString PPD_CACHE_VERSION) = .ok () := by decide
  refine ⟨st8.pc, ?_, hbins8, hsizes8, hsrc8, hty8⟩
  show ppdCacheCreateWithFile
    ⟨"#CUPS-PPD-CACHE-" ++ toString PPD_CACHE_VERSION,
     writeCacheLines pc attrs⟩ = .ok (st8.pc, attrs)
  simp only [ppdCacheCreateWithFile, hhdr, readAfterHeader, E, hfin, g9]

/-- C1 witness: the round trip on a small concrete cache with a one-byte
attribute blob. -/
theorem c1_roundtrip_witness :
    WfCache c1SamplePC ∧
    ∃ pc2, ppdCacheCreateWithFile
        (ppdCacheWriteFile c1SamplePC (some [7])) = .ok (pc2, some [7]) ∧
      pc2.bins = c1SamplePC.bins ∧ pc2.sizes = c1SamplePC.sizes ∧
      pc2.sources = c1SamplePC.sources ∧ pc2.types = c1SamplePC.types :=
  ⟨by decide, c1_roundtrip c1SamplePC (some [7]) (by decide)
     (fun b hb => by cases hb; decide)⟩

/-- Per-line facts of the read loop: the count invariant is preserved, the
`max_copies` field only changes through a `MaxCopies` directive, and a
successfully processed `IPP` directive declared exactly its blob's byte
count. -/
theorem readCacheLine_step_facts (st : ReaderState) (l : CacheLine)
    (st2 : ReaderState) (h : readCacheLine st l = .ok st2) :
    (CountInv st → CountInv st2) ∧
    (st2.pc.maxCopies = st.pc.maxCopies ∨
      l = CacheLine.maxCopies st2.pc.maxCopies) ∧
    (∀ len bytes, l = CacheLine.ipp len bytes →
      (bytes.length : Int) = len) := by
  cases l with
  | filter v =>
      simp only [readCacheLine, Except.ok.injEq] at h
      subst h
      exact ⟨fun hi => hi, Or.inl rfl, fun len bytes hl => nomatch hl⟩
  | prefilter v =>
      simp only [readCacheLine, Except.ok.injEq] at h
      subst h
      exact ⟨fun hi => hi, Or.inl rfl, fun len bytes hl => nomatch hl⟩
  | product v =>
      simp only [readCacheLine] at h
      split at h <;>
        (simp only [Except.ok.injEq] at h
         subst h
         exact ⟨fun hi => hi, Or.inl rfl, fun len bytes hl => nomatch hl⟩)
  | singleFile v =>
      simp only [readCacheLine, Except.ok.injEq] at h
      subst h
      exact ⟨fun hi => hi, Or.inl rfl, fun len bytes hl => nomatch hl⟩
  | ipp len0 bytes0 =>
      simp only [readCacheLine] at h
      split at h
      · simp at h
      · split at h
        · simp at h
        · split at h
          · simp at h
          · rename_i hlen
            simp only [Except.ok.injEq] at h
            subst h
            refine ⟨fun hi => hi, Or.inl rfl, fun len bytes hl => ?_⟩
            injection hl with h1 h2
            subst h1
            subst h2
            push_neg at hlen
            exact hlen
  | numBins n =>
      simp only [readCacheLine] at h
      split at h
      · simp at h
      · split at h
        · simp at h
        · rename_i hdup hrange
          simp only [Except.ok.injEq] at h
          subst h
          push_neg at hdup hrange
          have hinv : CountInv st → CountInv { st with numBins := n } := by
            intro hi
            obtain ⟨i1, i2, i3, i4⟩ := hi
            unfold CountInv
            refine ⟨?_, i2, i3, i4⟩
            show (st.pc.bins.length : Int) ≤ n
            omega
          exact ⟨hinv, Or.inl rfl, fun len bytes hl => nomatch hl⟩
  | bin pwg ppd =>
      simp only [readCacheLine] at h
      split at h
      · simp at h
      · split at h
        · simp at h
        · rename_i hnm hcnt
          simp only [Except.ok.injEq] at h
          subst h
          push_neg at hcnt
          have hinv : CountInv st → CountInv { st with pc :=
              { st.pc with bins := st.pc.bins ++ [(⟨pwg, ppd⟩ : PwgMap)] } } := by
            intro hi
            obtain ⟨i1, i2, i3, i4⟩ := hi
            unfold CountInv
            refine ⟨?_, i2, i3, i4⟩
            show ((st.pc.bins ++ [(⟨pwg, ppd⟩ : PwgMap)]).length : Int) ≤
              st.numBins
            simp only [List.length_append, List.length_cons, List.length_nil]
            push_cast
            omega
          exact ⟨hinv, Or.inl rfl, fun len bytes hl => nomatch hl⟩
  | numSizes n =>
      simp only [readCacheLine] at h
      split at h
      · simp at h
      · split at h
        · simp at h
        · rename_i hdup hrange
          simp only [Except.ok.injEq] at h
          subst h
          push_neg at hdup hrange
          have hinv : CountInv st → CountInv { st with numSizes := n } := by
            intro hi
            obtain ⟨i1, i2, i3, i4⟩ := hi
            unfold CountInv
            refine ⟨i1, ?_, i3, i4⟩
            show (st.pc.sizes.length : Int) ≤ n
            omega
          exact ⟨hinv, Or.inl rfl, fun len bytes hl => nomatch hl⟩
  | size pwg ppd w len le bo ri tp =>
      simp only [readCacheLine] at h
      split at h
      · simp at h
      · split at h
        · simp at h
        · rename_i hcnt hnm
          simp only [Except.ok.injEq] at h
          subst h
          push_neg at hcnt
          have hinv : CountInv st → CountInv { st with pc := { st.pc with
              sizes := st.pc.sizes ++
                [(⟨pwg, ppd, w, len, le, bo, ri, tp⟩ : PwgSize)] } } := by
            intro hi
            obtain ⟨i1, i2, i3, i4⟩ := hi
            unfold CountInv
            refine ⟨i1, ?_, i3, i4⟩
            show ((st.pc.sizes ++
              [(⟨pwg, ppd, w, len, le, bo, ri, tp⟩ : PwgSize)]).length : Int) ≤
              st.numSizes
            simp only [List.length_append, List.length_cons, List.length_nil]
            push_cast
            omega
          exact ⟨hinv, Or.inl rfl, fun len bytes hl => nomatch hl⟩
  | customSize maxw maxl minw minl le bo ri tp =>
      simp only [readCacheLine] at h
      split at h
      · simp at h
      · simp only [Except.ok.injEq] at h
        subst h
        exact ⟨fun hi => hi, Or.inl rfl, fun len bytes hl => nomatch hl⟩
  | sourceOption v =>
      simp only [readCacheLine, Except.ok.injEq] at h
      subst h
      exact ⟨fun hi => hi, Or.inl rfl, fun len bytes hl => nomatch hl⟩
  | numSources n =>
      simp only [readCacheLine] at h
      split at h
      · simp at h
      · split at h
        · simp at h
        · rename_i hdup hrange
          simp only [Except.ok.injEq] at h
          subst h
          push_neg at hdup hrange
          have hinv : CountInv st → CountInv { st with numSources := n } := by
            intro hi
            obtain ⟨i1, i2, i3, i4⟩ := hi
            unfold CountInv
            refine ⟨i1, i2, ?_, i4⟩
            show (st.pc.sources.length : Int) ≤ n
            omega
          exact ⟨hinv, Or.inl rfl, fun len bytes hl => nomatch hl⟩
  | source pwg ppd =>
      simp only [readCacheLine] at h
      split at h
      · simp at h
      · split at h
        · simp at h
        · rename_i hnm hcnt
          simp only [Except.ok.injEq] at h
          subst h
          push_neg at hcnt
          have hinv : CountInv st → CountInv { st with pc :=
              { st.pc with sources := st.pc.sources ++
                [(⟨pwg, ppd⟩ : PwgMap)] } } := by
            intro hi
            obtain ⟨i1, i2, i3, i4⟩ := hi
            unfold CountInv
            refine ⟨i1, i2, ?_, i4⟩
            show ((st.pc.sources ++ [(⟨pwg, ppd⟩ : PwgMap)]).length : Int) ≤
              st.numSources
            simp only [List.length_append, List.length_cons, List.length_nil]
            push_cast
            omega
          exact ⟨hinv, Or.inl rfl, fun len bytes hl => nomatch hl⟩
  | numTypes n =>
      simp only [readCacheLine] at h
      split at h
      · simp at h
      · split at h
        · simp at h
        · rename_i hdup hrange
          simp only [Except.ok.injEq] at h
          subst h
          push_neg at hdup hrange
          have hinv : CountInv st → CountInv { st with numTypes := n } := by
            intro hi
            obtain ⟨i1, i2, i3, i4⟩ := hi
            unfold CountInv
            refine ⟨i1, i2, i3, ?_⟩
            show (st.pc.types.length : Int) ≤ n
            omega
          exact ⟨hinv, Or.inl rfl, fun len bytes hl => nomatch hl⟩
  | mtype pwg ppd =>
      simp only [readCacheLine] at h
      split at h
      · simp at h
      · split at h
        · simp at h
        · rename_i hnm hcnt
          simp only [Except.ok.injEq] at h
          subst h
          push_neg at hcnt
          have hinv : CountInv st → CountInv { st with pc :=
              { st.pc with types := st.pc.types ++
                [(⟨pwg, ppd⟩ : PwgMap)] } } := by
            intro hi
            obtain ⟨i1, i2, i3, i4⟩ := hi
            unfold CountInv
            refine ⟨i1, i2, i3, ?_⟩
            show ((st.pc.types ++ [(⟨pwg, ppd⟩ : PwgMap)]).length : Int) ≤
              st.numTypes
            simp only [List.length_append, List.length_cons, List.length_nil]
            push_cast
            omega
          exact ⟨hinv, Or.inl rfl, fun len bytes hl => nomatch hl⟩
  | preset cm q opts =>
      simp only [readCacheLine] at h
      split at h
      · simp at h
      · simp only [Except.ok.injEq] at h
        subst h
        exact ⟨fun hi => hi, Or.inl rfl, fun len bytes hl => nomatch hl⟩
  | optimizePreset cls opts =>
      simp only [readCacheLine] at h
      split at h
      · simp at h
      · simp only [Except.ok.injEq] at h
        subst h
        exact ⟨fun hi => hi, Or.inl rfl, fun len bytes hl => nomatch hl⟩
  | sidesOption v =>
      simp only [readCacheLine, Except.ok.injEq] at h
      subst h
      exact ⟨fun hi => hi, Or.inl rfl, fun len bytes hl => nomatch hl⟩
  | sides1Sided v =>
      simp only [readCacheLine, Except.ok.injEq] at h
      subst h
      exact ⟨fun hi => hi, Or.inl rfl, fun len bytes hl => nomatch hl⟩
  | sides2SidedLong v =>
      simp only [readCacheLine, Except.ok.injEq] at h
      subst h
      exact ⟨fun hi => hi, Or.inl rfl, fun len bytes hl => nomatch hl⟩
  | sides2SidedShort v =>
      simp only [readCacheLine, Except.ok.injEq] at h
      subst h
      exact ⟨fun hi => hi, Or.inl rfl, fun len bytes hl => nomatch hl⟩
  | finishings value opts =>
      simp only [readCacheLine, Except.ok.injEq] at h
      subst h
      exact ⟨fun hi => hi, Or.inl rfl, fun len bytes hl => nomatch hl⟩
  | finishingTemplate v =>
      simp only [readCacheLine, Except.ok.injEq] at h
      subst h
      exact ⟨fun hi => hi, Or.inl rfl, fun len bytes hl => nomatch hl⟩
  | maxCopies n =>
      simp only [readCacheLine, Except.ok.injEq] at h
      subst h
      exact ⟨fun hi => hi, Or.inr rfl, fun len bytes hl => nomatch hl⟩
  | chargeInfoUri v =>
      simp only [readCacheLine, Except.ok.injEq] at h
      subst h
      exact ⟨fun hi => hi, Or.inl rfl, fun len bytes hl => nomatch hl⟩
  | jobAccountId v =>
      simp only [readCacheLine, Except.ok.injEq] at h
      subst h
      exact ⟨fun hi => hi, Or.inl rfl, fun len bytes hl => nomatch hl⟩
  | jobAccountingUserId v =>
      simp only [readCacheLine, Except.ok.injEq] at h
      subst h
      exact ⟨fun hi => hi, Or.inl rfl, fun len bytes hl => nomatch hl⟩
  | jobPassword v =>
      simp only [readCacheLine, Except.ok.injEq] at h
      subst h
      exact ⟨fun hi => hi, Or.inl rfl, fun len bytes hl => nomatch hl⟩
  | mandatory v =>
      simp only [readCacheLine, Except.ok.injEq] at h
      subst h
      exact ⟨fun hi => hi, Or.inl rfl, fun len bytes hl => nomatch hl⟩
  | supportFile v =>
      simp only [readCacheLine, Except.ok.injEq] at h
      subst h
      exact ⟨fun hi => hi, Or.inl rfl, fun len bytes hl => nomatch hl⟩
  | unknown k v =>
      simp only [readCacheLine, Except.ok.injEq] at h
      subst h
      exact ⟨fun hi => hi, Or.inl rfl, fun len bytes hl => nomatch hl⟩

/-- The per-line facts lifted to the whole read loop. -/
theorem readCacheLines_facts :
    ∀ (ls : List CacheLine) (st st2 : ReaderState),
      readCacheLines st ls = .ok st2 →
      (CountInv st → CountInv st2) ∧
      (st2.pc.maxCopies = st.pc.maxCopies ∨
        CacheLine.maxCopies st2.pc.maxCopies ∈ ls) ∧
      (∀ len bytes, CacheLine.ipp len bytes ∈ ls →
        (bytes.length : Int) = len) := by
  intro ls
  induction ls with
  | nil =>
      intro st st2 h
      simp only [readCacheLines, Except.ok.injEq] at h
      subst h
      exact ⟨fun hi => hi, Or.inl rfl, fun len bytes hm => by simp at hm⟩
  | cons l t ih =>
      intro st st2 h
      simp only [readCacheLines] at h
      cases hstep : readCacheLine st l with
      | error e =>
          rw [hstep] at h
          simp at h
      | ok stm =>
          rw [hstep] at h
          obtain ⟨s1, s2, s3⟩ := readCacheLine_step_facts st l stm hstep
          obtain ⟨r1, r2, r3⟩ := ih stm st2 h
          refine ⟨fun hi => r1 (s1 hi), ?_, ?_⟩
          · rcases r2 with he | hm
            · rcases s2 with he2 | hl
              · exact Or.inl (he.trans he2)
              · refine Or.inr ?_
                rw [he, ← hl]
                exact List.mem_cons_self l t
            · exact Or.inr (List.mem_cons_of_mem l hm)
          · intro len bytes hm
            rcases List.mem_cons.mp hm with hl | hmem
            · exact s3 len bytes hl.symm
            · exact r3 len bytes hmem

/-- C6 counterexample: fewer `Bin` detail lines than the declared `NumBins`
count is NOT a failure — this file declares 2 bins, provides 1, and loads
successfully (there is no post-loop bins check, unlike sizes, sources and
types). -/
theorem c6_counterexample :
    errOf (ppdCacheCreateWithFile
      ⟨"#CUPS-PPD-CACHE-" ++ toString PPD_CACHE_VERSION,
       [CacheLine.numBins 2, CacheLine.bin "face-down" "FaceDown"]⟩) =
      none ∧
    (ppdCacheCreateWithFile
      ⟨"#CUPS-PPD-CACHE-" ++ toString PPD_CACHE_VERSION,
       [CacheLine.numBins 2, CacheLine.bin "face-down" "FaceDown"]⟩).toOption.map
        (fun p => p.1.bins.length) = some 1 := by
  decide

/-- C6 amended: a successful read never holds more detail lines than any
declared count (excess entries are hard failures for all four tables), the
post-loop validation forces exact agreement for sizes, sources and types —
but not for bins, where fewer entries than declared are accepted — and every
successfully processed `IPP` directive declared exactly its blob's byte
count. -/
theorem c6_amended_count_validation :
    ∀ (lines : List CacheLine) (st2 : ReaderState),
      readCacheLines initReaderState lines = .ok st2 →
      ((st2.pc.bins.length : Int) ≤ st2.numBins ∧
       (st2.pc.sizes.length : Int) ≤ st2.numSizes ∧
       (st2.pc.sources.length : Int) ≤ st2.numSources ∧
       (st2.pc.types.length : Int) ≤ st2.numTypes) ∧
      (errOf (finishRead st2) = none →
        (st2.pc.sizes.length : Int) = st2.numSizes ∧
        (st2.pc.sources.length : Int) = st2.numSources ∧
        (st2.pc.types.length : Int) = st2.numTypes) ∧
      (∀ len bytes, CacheLine.ipp len bytes ∈ lines →
        (bytes.length : Int) = len) := by
  intro lines st2 h
  obtain ⟨hmono, _, hipp⟩ := readCacheLines_facts lines initReaderState st2 h
  have hinv : CountInv st2 := hmono ⟨by decide, by decide, by decide, by decide⟩
  obtain ⟨i1, i2, i3, i4⟩ := hinv
  refine ⟨⟨i1, i2, i3, i4⟩, ?_, hipp⟩
  intro hfin
  unfold finishRead at hfin
  split_ifs at hfin with h1 h2 h3
  · simp [errOf] at hfin
  · simp [errOf] at hfin
  · simp [errOf] at hfin
  · exact ⟨by omega, by omega, by omega⟩

/-- C6 amended witness: the validation facts on a concrete successful
file. -/
theorem c6_amended_witness :
    readCacheLines initReaderState c6WitnessLines = .ok c6WitnessState ∧
    ((c6WitnessState.pc.bins.length : Int) ≤ c6WitnessState.numBins ∧
     (c6WitnessState.pc.sizes.length : Int) ≤ c6WitnessState.numSizes ∧
     (c6WitnessState.pc.sources.length : Int) ≤ c6WitnessState.numSources ∧
     (c6WitnessState.pc.types.length : Int) ≤ c6WitnessState.numTypes) :=
  ⟨rfl, (c6_amended_count_validation c6WitnessLines c6WitnessState rfl).1⟩

/-- C8 counterexample: a cache file declaring `MaxCopies 0` loads
successfully and yields `max_copies = 0`, so the serializer-load does not
guarantee `max_copies ≥ 1`. -/
theorem c8_counterexample :
    errOf (ppdCacheCreateWithFile
      ⟨"#CUPS-PPD-CACHE-" ++ toString PPD_CACHE_VERSION,
       [CacheLine.maxCopies 0]⟩) = none ∧
    (ppdCacheCreateWithFile
      ⟨"#CUPS-PPD-CACHE-" ++ toString PPD_CACHE_VERSION,
       [CacheLine.maxCopies 0]⟩).toOption.map (fun p => p.1.maxCopies) =
      some 0 ∧
    ¬ ((0 : Int) ≥ 1) := by
  decide

/-- C8 amended: the builder's `max_copies` is ≥ 1 whenever the device
description carries no explicit `cupsMaxCopies` attribute (defaults 1 or
9999); an explicit attribute is stored as its unvalidated `atoi` value.  The
file loader defaults `max_copies` to 9999 and only a `MaxCopies` directive
can change it, so a loaded cache violates `max_copies ≥ 1` only when the file
explicitly declares that value. -/
theorem c8_amended_max_copies :
    (∀ manual, builderMaxCopies none manual ≥ 1) ∧
    (∀ v manual, builderMaxCopies (some v) manual = atoi v) ∧
    (∀ (lines : List CacheLine) (st2 : ReaderState),
      readCacheLines initReaderState lines = .ok st2 →
      st2.pc.maxCopies = 9999 ∨
        CacheLine.maxCopies st2.pc.maxCopies ∈ lines) := by
  refine ⟨?_, fun v manual => rfl, ?_⟩
  · intro manual
    cases manual <;> simp [builderMaxCopies]
  · intro lines st2 h
    obtain ⟨_, hmc, _⟩ := readCacheLines_facts lines initReaderState st2 h
    rcases hmc with he | hm
    · exact Or.inl (he.trans rfl)
    · exact Or.inr hm

/-- C8 amended witness: the builder default and the loader default both give
`max_copies ≥ 1` on concrete inputs. -/
theorem c8_amended_witness :
    builderMaxCopies none true ≥ 1 ∧
    readCacheLines initReaderState [] = .ok initReaderState ∧
    (initReaderState.pc.maxCopies = 9999 ∨
      CacheLine.maxCopies initReaderState.pc.maxCopies ∈
        ([] : List CacheLine)) :=
  ⟨c8_amended_max_copies.1 true, rfl,
   c8_amended_max_copies.2.2 [] initReaderState rfl⟩

/-- With enough output slots, the finishings scan reports exactly the
matching entries, in table order. -/
theorem scanFinishings_eq_filter (marked : String → Option String) :
    ∀ (l : List PpdFinishings) (budget : Nat), l.length ≤ budget →
      scanFinishings marked l budget =
        (l.filter (allPairsMarked marked)).map (fun f => f.value) := by
  intro l
  induction l with
  | nil => intro budget _; rfl
  | cons f t ih =>
      intro budget hb
      simp only [List.length_cons] at hb
      simp only [scanFinishings, List.filter_cons]
      by_cases hm : allPairsMarked marked f = true
      · rw [if_pos hm, if_pos hm]
        simp only [List.map_cons]
        congr 1
        by_cases hb1 : budget = 1
        · rw [if_pos hb1]
          have ht : t = [] := List.length_eq_zero.mp (by omega)
          rw [ht]
          rfl
        · rw [if_neg hb1]
          exact ih (budget - 1) (by omega)
      · rw [if_neg hm, if_neg hm]
        exact ih budget (by omega)

/-- C4: with a finishings table present and an output array that can hold
every entry, `ppdCacheGetFinishingValues` reports an entry's value exactly
when every one of the entry's required option/value pairs is currently
marked, and when no entry matches it returns exactly the one sentinel value
`IPP_FINISHINGS_NONE`. -/
theorem c4_finishing_values (marked : String → Option String)
    (finishings : List PpdFinishings) (maxValues : Int)
    (hne : finishings ≠ [])
    (hcap : (finishings.length : Int) ≤ maxValues) :
    (∀ f ∈ finishings, allPairsMarked marked f = true →
       f.value ∈ ppdCacheGetFinishingValues marked finishings maxValues) ∧
    (∀ v ∈ ppdCacheGetFinishingValues marked finishings maxValues,
       (∃ f ∈ finishings, f.value = v ∧ allPairsMarked marked f = true) ∨
       (v = IPP_FINISHINGS_NONE ∧
        ∀ f ∈ finishings, allPairsMarked marked f = false)) ∧
    ((∀ f ∈ finishings, allPairsMarked marked f = false) →
       ppdCacheGetFinishingValues marked finishings maxValues =
         [IPP_FINISHINGS_NONE]) := by
  have hlen1 : 1 ≤ finishings.length := by
    cases finishings with
    | nil => exact absurd rfl hne
    | cons a t => simp
  have hguard : ¬ maxValues < 1 := by omega
  have hbudget : finishings.length ≤ maxValues.toNat := by omega
  have hempty : finishings.isEmpty = false := by
    cases finishings with
    | nil => exact absurd rfl hne
    | cons a t => rfl
  have hscan := scanFinishings_eq_filter marked finishings maxValues.toNat
    hbudget
  simp only [ppdCacheGetFinishingValues, if_neg hguard, hempty,
    Bool.false_eq_true, if_false, hscan]
  by_cases hfil : finishings.filter (allPairsMarked marked) = []
  · have hall : ∀ f ∈ finishings, allPairsMarked marked f = false := by
      intro f hf
      by_contra hc
      have : allPairsMarked marked f = true := by
        cases hx : allPairsMarked marked f
        · exact absurd hx hc
        · rfl
      have : f ∈ finishings.filter (allPairsMarked marked) :=
        List.mem_filter.mpr ⟨hf, this⟩
      rw [hfil] at this
      simp at this
    rw [hfil]
    simp only [List.map_nil, List.isEmpty_nil, if_true]
    refine ⟨?_, ?_, fun _ => by simp⟩
    · intro f hf hm
      rw [hall f hf] at hm
      simp at hm
    · intro v hv
      simp only [List.mem_singleton] at hv
      exact Or.inr ⟨hv, hall⟩
  · have hmapne : (finishings.filter (allPairsMarked marked)).map
        (fun f => f.value) ≠ [] := by
      simp [hfil]
    have hif : ((finishings.filter (allPairsMarked marked)).map
        (fun f => f.value)).isEmpty = false := by
      cases hx : (finishings.filter (allPairsMarked marked)).map
        (fun f => f.value) with
      | nil => exact absurd hx hmapne
      | cons a t => rfl
    rw [hif]
    simp only [Bool.false_eq_true, if_false]
    refine ⟨?_, ?_, ?_⟩
    · intro f hf hm
      exact List.mem_map.mpr ⟨f, List.mem_filter.mpr ⟨hf, hm⟩, rfl⟩
    · intro v hv
      obtain ⟨f, hf, hfv⟩ := List.mem_map.mp hv
      obtain ⟨hfin, hmk⟩ := List.mem_filter.mp hf
      exact Or.inl ⟨f, hfin, hfv, hmk⟩
    · intro hall
      exfalso
      apply hfil
      rw [List.filter_eq_nil_iff]
      intro f hf
      rw [hall f hf]
      simp

/-- C4 witness: a marked staple configuration reports exactly the staple
value; an unmarked one reports the none sentinel. -/
theorem c4_finishing_values_witness :
    c4Finishings ≠ [] ∧
    (4 : Int) ∈ ppdCacheGetFinishingValues c4Marked c4Finishings 5 :=
  ⟨by decide,
   (c4_finishing_values c4Marked c4Finishings 5 (by decide) (by decide)).1
     ⟨4, [("StapleLocation", "UpperLeft")]⟩ (by decide) (by decide)⟩

/-- The temporary sibling name never equals the target name. -/
theorem tempName_ne (f : String) : tempName f ≠ f := by
  intro h
  have hlen := congrArg String.length h
  have h2 : (".N" : String).length = 2 := rfl
  rw [tempName, String.length_append, h2] at hlen
  omega

/-- C7 counterexample: when the final `rename` fails after a successful
close, the previously existing target file has already been `unlink`ed — the
function reports failure but the target is gone (and the temporary file
remains), so the write is not atomic with respect to the target path. -/
theorem c7_counterexample :
    c7FS.files "cache" = some c7OldContent ∧
    (ppdCacheWriteFileAtomic c7FS "cache" c7NewContent true true
      false).success = false ∧
    (ppdCacheWriteFileAtomic c7FS "cache" c7NewContent true true
      false).fs.files "cache" = none ∧
    (ppdCacheWriteFileAtomic c7FS "cache" c7NewContent true true
      false).fs.files (tempName "cache") = some c7NewContent := by
  decide

/-- C7 amended: on open failure nothing changes; on a write/close failure
the temporary file is discarded and the target is untouched; on full success
the target holds the new content and the temporary is gone; but on a rename
failure after a successful close the target has already been unlinked — it is
lost and the temporary file remains. -/
theorem c7_amended_write_atomicity (fs : FileSystem) (filename : String)
    (content : CacheFile) (openOk closeOk renameOk : Bool) :
    (openOk = false →
      (ppdCacheWriteFileAtomic fs filename content openOk closeOk
        renameOk).success = false ∧
      ∀ p, (ppdCacheWriteFileAtomic fs filename content openOk closeOk
        renameOk).fs.files p = fs.files p) ∧
    (openOk = true → closeOk = false →
      (ppdCacheWriteFileAtomic fs filename content openOk closeOk
        renameOk).success = false ∧
      (ppdCacheWriteFileAtomic fs filename content openOk closeOk
        renameOk).fs.files filename = fs.files filename ∧
      (ppdCacheWriteFileAtomic fs filename content openOk closeOk
        renameOk).fs.files (tempName filename) = none) ∧
    (openOk = true → closeOk = true → renameOk = true →
      (ppdCacheWriteFileAtomic fs filename content openOk closeOk
        renameOk).success = true ∧
      (ppdCacheWriteFileAtomic fs filename content openOk closeOk
        renameOk).fs.files filename = some content ∧
      (ppdCacheWriteFileAtomic fs filename content openOk closeOk
        renameOk).fs.files (tempName filename) = none) ∧
    (openOk = true → closeOk = true → renameOk = false →
      (ppdCacheWriteFileAtomic fs filename content openOk closeOk
        renameOk).success = false ∧
      (ppdCacheWriteFileAtomic fs filename content openOk closeOk
        renameOk).fs.files filename = none ∧
      (ppdCacheWriteFileAtomic fs filename content openOk closeOk
        renameOk).fs.files (tempName filename) = some content) := by
  have hne : filename ≠ tempName filename :=
    fun he => tempName_ne filename he.symm
  have hne2 : tempName filename ≠ filename := tempName_ne filename
  refine ⟨?_, ?_, ?_, ?_⟩
  · intro ho
    subst ho
    simp [ppdCacheWriteFileAtomic]
  · intro ho hc
    subst ho
    subst hc
    refine ⟨?_, ?_, ?_⟩ <;>
      simp [ppdCacheWriteFileAtomic, fsRemove, fsSet, hne, hne2]
  · intro ho hc hr
    subst ho
    subst hc
    subst hr
    refine ⟨?_, ?_, ?_⟩ <;>
      simp [ppdCacheWriteFileAtomic, fsRemove, fsSet, hne, hne2]
  · intro ho hc hr
    subst ho
    subst hc
    subst hr
    refine ⟨?_, ?_, ?_⟩ <;>
      simp [ppdCacheWriteFileAtomic, fsRemove, fsSet, hne, hne2]

/-- C7 amended witness: the success and close-failure branches on a concrete
file system. -/
theorem c7_amended_witness :
    (ppdCacheWriteFileAtomic c7FS "cache" c7NewContent true true
      true).success = true ∧
    (ppdCacheWriteFileAtomic c7FS "cache" c7NewContent true true
      true).fs.files "cache" = some c7NewContent ∧
    (ppdCacheWriteFileAtomic c7FS "cache" c7NewContent true false
      true).fs.files "cache" = c7FS.files "cache" := by
  refine ⟨?_, ?_, ?_⟩
  · exact ((c7_amended_write_atomicity c7FS "cache" c7NewContent true true
      true).2.2.1 rfl rfl rfl).1
  · exact ((c7_amended_write_atomicity c7FS "cache" c7NewContent true true
      true).2.2.1 rfl rfl rfl).2.1
  · exact ((c7_amended_write_atomicity c7FS "cache" c7NewContent true false
      true).2.1 rfl rfl).2.1

end LibPPD
